import Mathlib

/-!
# wireguard-loop-go: loop device, UAPI socket bootstrap and daemonize decision

A shallow embedding of `loop/loop.go`, `ipc/uapi_unix.go` and the set-up part of
`main.go`, followed by the properties proved about them.

Conventions of the embedding.

* A Go slice is a `List`; a `nil` slice is `[]` (both have length 0 and `copy`
  treats them alike).  Distinct caller buffers are assumed not to alias.
* Go's `int` is `Int` for values the caller chooses (`offset`, the entries of
  `sizes`) and `Nat` for lengths and counts.  The only arithmetic on a caller
  chosen `int` is `len(bufs[i]) - offset`, which cannot overflow for `offset ≥ 0`.
* A call either returns, parks the calling goroutine (`blocked`), or faults
  (`panic`).  The scheduler's choice among several ready `select` cases is the
  explicit argument `pick`.
-/

namespace WireguardLoop

/-! # Definitions -/

/-! ## Go channels and `select` -/

/-- A buffered Go channel: queued values (head is the oldest), capacity, and
whether `close` has been called on it. -/
structure Chan (α : Type) where
  buf : List α
  cap : Nat
  closed : Bool
  deriving DecidableEq, Repr

namespace Chan

/-- The Go expression `make(chan α, cap)`. -/
def make {α : Type} (cap : Nat) : Chan α := ⟨[], cap, false⟩

/-- A receive case is ready when a value is queued or the channel is closed. -/
def recvReady {α : Type} (c : Chan α) : Bool := !c.buf.isEmpty || c.closed

/-- A send case is ready when there is room; on a closed channel it is ready
too (and faults when it runs). -/
def sendReady {α : Type} (c : Chan α) : Bool := c.closed || decide (c.buf.length < c.cap)

/-- Receive of a ready channel: the oldest queued value, or the zero value `zero`
of the element type when the channel is closed and drained. -/
def recv {α : Type} (zero : α) (c : Chan α) : α × Chan α :=
  match c.buf with
  | [] => (zero, c)
  | x :: rest => (x, { c with buf := rest })

/-- Send on an open channel with room: the value joins the tail. -/
def send {α : Type} (c : Chan α) (x : α) : Chan α := { c with buf := c.buf ++ [x] }

/-- The Go statement `close(c)`: faults (`none`) on an already closed channel. -/
def close {α : Type} (c : Chan α) : Option (Chan α) :=
  if c.closed then none else some { c with closed := true }

end Chan

/-- The two cases of the `select` statements of `loop.go`: the receive on
`d.closed` and the communication on `d.incoming`. -/
inductive SelectCase where
  | closedCase
  | commCase
  deriving DecidableEq, Repr

/-- Go's `select` over two communication cases: `none` when neither is ready
(the goroutine parks), the ready one when only one is, and the scheduler's `pick`
when both are. -/
def select2 (closedReady commReady : Bool) (pick : SelectCase) : Option SelectCase :=
  match closedReady, commReady with
  | false, false => none
  | true, false => some .closedCase
  | false, true => some .commCase
  | true, true => some pick

/-! ## `loop/loop.go` -/

namespace loop

/-- A byte. -/
abbrev Byte := Fin 256

/-- The constant `DefaultMTU`. -/
def DefaultMTU : Int := 1420

/-- Modelled from the spec: `tun.Event` is declared in package `tun`, which is not
among the sources; the spec names one lifecycle notification, "interface is up". -/
inductive Event where
  | EventUp
  deriving DecidableEq, Repr

/-- The errors `Read` and `Write` return: `io.ErrClosedPipe` and
`errors.New("packet too large for buffer")`. -/
inductive Error where
  | ErrClosedPipe
  | packetTooLarge
  deriving DecidableEq, Repr

/-- The struct `Device`.  The channel `closed` never carries a value, so only
whether it has been closed is kept.  The mutex `mu` is not kept: between two
calls of a sequential run it is always unlocked. -/
structure Device where
  events : Chan Event
  closed : Bool
  mtu : Int
  name : String
  incoming : Chan (List (List Byte))
  deriving DecidableEq, Repr

/-- The function `CreateLoop`; the returned error is always `nil` (`none`). -/
def CreateLoop (name : String) (mtu : Int) : Device × Option Error :=
  let mtu := if mtu ≤ 0 then DefaultMTU else mtu
  let d : Device :=
    { events := Chan.make 10
      closed := false
      mtu := mtu
      name := name
      incoming := Chan.make 128000 }
  ({ d with events := d.events.send .EventUp }, none)

/-- Go's builtin `copy(dst, src)`: the new contents of `dst`. -/
def copy (dst src : List Byte) : List Byte :=
  src.take dst.length ++ dst.drop src.length

/-- How the `for` loop of `Read` ends. -/
inductive LoopResult where
  | done (bufs : List (List Byte)) (sizes : List Int)
  | tooLarge (bufs : List (List Byte)) (sizes : List Int)
  | panic
  deriving DecidableEq, Repr

/-- The loop `for i := 0; i < n; i++ { ... }` of `Read`, entered at index `i` with
`rem = n - i` iterations left; `bufs` and `sizes` are the caller's memory. -/
def readLoop (packets : List (List Byte)) (offset : Int) :
    Nat → Nat → List (List Byte) → List Int → LoopResult
  | 0, _, bufs, sizes => .done bufs sizes
  | rem + 1, i, bufs, sizes =>
    -- if i >= len(sizes) { break }
    if i ≥ sizes.length then .done bufs sizes
    else
      -- packets[i] and bufs[i]: an index out of range faults
      match packets[i]?, bufs[i]? with
      | some packet, some buf =>
        -- if len(packet) > len(bufs[i])-offset { return 0, errors.New(...) }
        if (packet.length : Int) > (buf.length : Int) - offset then .tooLarge bufs sizes
        -- the slice expression bufs[i][offset:] faults unless 0 ≤ offset ≤ len(bufs[i])
        else if offset < 0 ∨ offset > (buf.length : Int) then .panic
        else
          -- copy(bufs[i][offset:], packet); sizes[i] = len(packet)
          let buf' := buf.take offset.toNat ++ copy (buf.drop offset.toNat) packet
          readLoop packets offset rem (i + 1) (bufs.set i buf') (sizes.set i (packet.length : Int))
      | _, _ => .panic

/-- What a returning `Read` leaves: the device, the caller's buffers and size
slots, and the pair `(n, err)`. -/
structure ReadRet where
  dev : Device
  bufs : List (List Byte)
  sizes : List Int
  n : Nat
  err : Option Error
  deriving DecidableEq, Repr

/-- Outcome of a `Read` call. -/
inductive ReadOutcome where
  | ret (r : ReadRet)
  | blocked
  | panic
  deriving DecidableEq, Repr

/-- The method `Device.Read`. -/
def Read (d : Device) (bufs : List (List Byte)) (sizes : List Int) (offset : Int)
    (pick : SelectCase) : ReadOutcome :=
  match select2 d.closed d.incoming.recvReady pick with
  | none => .blocked
  -- case <-d.closed:
  | some .closedCase => .ret ⟨d, bufs, sizes, 0, some .ErrClosedPipe⟩
  -- case packets := <-d.incoming:
  | some .commCase =>
    let (packets, incoming) := d.incoming.recv []
    let d' := { d with incoming := incoming }
    let n := packets.length
    let n := if n > bufs.length then bufs.length else n
    match readLoop packets offset n 0 bufs sizes with
    | .done bufs' sizes' => .ret ⟨d', bufs', sizes', n, none⟩
    | .tooLarge bufs' sizes' => .ret ⟨d', bufs', sizes', 0, some .packetTooLarge⟩
    | .panic => .panic

/-- The loop `for i, buf := range bufs { ... }` of `Write`: the copied packets, or
`none` when the slice expression `buf[offset:]` faults (negative `offset`). -/
def copyPackets (offset : Int) : List (List Byte) → Option (List (List Byte))
  | [] => some []
  | buf :: bufs =>
    -- if offset >= len(buf) { continue }: packets[i] stays nil
    if offset ≥ (buf.length : Int) then
      (copyPackets offset bufs).map (fun packets => [] :: packets)
    -- buf[offset:] with a negative offset faults
    else if offset < 0 then none
    else
      -- packet := make([]byte, len(buf)-offset); copy(packet, buf[offset:])
      let packet := copy (List.replicate (buf.length - offset.toNat) 0) (buf.drop offset.toNat)
      (copyPackets offset bufs).map (fun packets => packet :: packets)

/-- What a returning `Write` leaves: the device and the pair `(n, err)`. -/
structure WriteRet where
  dev : Device
  n : Nat
  err : Option Error
  deriving DecidableEq, Repr

/-- Outcome of a `Write` call; a parked call keeps the batch it is waiting to
send and the count it will return. -/
inductive WriteOutcome where
  | ret (r : WriteRet)
  | blocked (packets : List (List Byte)) (count : Nat)
  | panic
  deriving DecidableEq, Repr

/-- The inner `select` of `Write` (the blocking send), evaluated in device state
`d`; it is also what a parked `Write` runs when a later state wakes it. -/
def sendSelect (d : Device) (packets : List (List Byte)) (count : Nat)
    (pick : SelectCase) : WriteOutcome :=
  match select2 d.closed d.incoming.sendReady pick with
  | none => .blocked packets count
  -- case <-d.closed:
  | some .closedCase => .ret ⟨d, 0, some .ErrClosedPipe⟩
  -- case d.incoming <- packets: a send on a closed channel faults
  | some .commCase =>
    if d.incoming.closed then .panic
    else .ret ⟨{ d with incoming := d.incoming.send packets }, count, none⟩

/-- The method `Device.Write`. -/
def Write (d : Device) (bufs : List (List Byte)) (offset : Int)
    (pick : SelectCase) : WriteOutcome :=
  -- select { case <-d.closed: ...; default: ... }
  if d.closed then .ret ⟨d, 0, some .ErrClosedPipe⟩
  else
    match copyPackets offset bufs with
    | none => .panic
    | some packets => sendSelect d packets bufs.length pick

/-- The method `Device.MTU`. -/
def MTU (d : Device) : Int × Option Error := (d.mtu, none)

/-- The method `Device.Name`. -/
def Name (d : Device) : String × Option Error := (d.name, none)

/-- The method `Device.Events`. -/
def Events (d : Device) : Chan Event := d.events

/-- The method `Device.BatchSize`. -/
def BatchSize (_d : Device) : Nat := 128

/-- The statement `close(d.closed)`, the first of the three closes of `Close`;
it is the one that wakes goroutines parked in `Read` and `Write`. -/
def closeSignal (d : Device) : Device := { d with closed := true }

/-- Outcome of a `Close` call. -/
inductive CloseOutcome where
  | ret (dev : Device) (err : Option Error)
  | panic
  deriving DecidableEq, Repr

/-- The method `Device.Close`. -/
def Close (d : Device) : CloseOutcome :=
  -- select { case <-d.closed: return nil; default: ... }
  if d.closed then .ret d none
  else
    -- close(d.closed); close(d.events); close(d.incoming)
    let d1 := closeSignal d
    match d1.events.close with
    | none => .panic
    | some events =>
      match d1.incoming.close with
      | none => .panic
      | some incoming => .ret { d1 with events := events, incoming := incoming } none

/-- Device states a sequential run can reach from `CreateLoop`: through returning
`Read`, `Write` and `Close` calls, and through parked `Write` calls completing
their send later. -/
inductive Reachable : Device → Prop where
  | create (name : String) (mtu : Int) : Reachable (CreateLoop name mtu).1
  | read {d : Device} {r : ReadRet} (bufs : List (List Byte)) (sizes : List Int)
      (offset : Int) (pick : SelectCase) :
      Reachable d → Read d bufs sizes offset pick = .ret r → Reachable r.dev
  | write {d : Device} {r : WriteRet} (bufs : List (List Byte)) (offset : Int)
      (pick : SelectCase) :
      Reachable d → Write d bufs offset pick = .ret r → Reachable r.dev
  | resume {d : Device} {r : WriteRet} (packets : List (List Byte)) (count : Nat)
      (pick : SelectCase) :
      Reachable d → sendSelect d packets count pick = .ret r → Reachable r.dev
  | close {d d' : Device} {e : Option Error} :
      Reachable d → Close d = .ret d' e → Reachable d'

end loop

/-- A value of type `*os.File`: a file for a numeric descriptor (`os.NewFile` or
`listener.File()`), one of the standard streams, an opened `os.DevNull`, or `nil`. -/
inductive File where
  | fd (n : Nat)
  | stdout
  | stderr
  | devNull
  | nil
  deriving DecidableEq, Repr

/-! ## `ipc/uapi_unix.go` -/

namespace ipc

/-- Error numbers the operating system may report to the calls of `UAPIOpen`. -/
inductive Errno where
  | EADDRINUSE
  | EACCES
  | ENOENT
  | ECONNREFUSED
  | EMFILE
  | EINVAL
  deriving DecidableEq, Repr

/-- A Go `error` value in package `ipc`: an operating-system error, an unknown
network (`net.UnknownNetworkError`), or `errors.New(msg)`. -/
inductive Error where
  | errno (e : Errno)
  | unknownNetwork (net : String)
  | text (msg : String)
  deriving DecidableEq, Repr

/-- The struct `net.UnixAddr`. -/
structure UnixAddr where
  Name : String
  Net : String
  deriving DecidableEq, Repr

/-- A `*net.UnixListener`, identified by its socket descriptor. -/
abbrev Listener := Nat

/-- The library function `net.ResolveUnixAddr`: for the three Unix networks the
address of that name, otherwise an unknown-network error. -/
def ResolveUnixAddr (network address : String) : Except Error UnixAddr :=
  if network = "unix" ∨ network = "unixgram" ∨ network = "unixpacket" then
    .ok ⟨address, network⟩
  else .error (.unknownNetwork network)

/-- What the process environment and the operating system answer to the calls of
`UAPIOpen`: the two directories read at start-up, and the result of each system
call (`listenUnix n` is the answer to the `n`-th bind, counted from 0). -/
structure World where
  xdgRuntimeDir : String
  tempDir : String
  mkdirAll : String → Nat → Option Error
  oldUmask : Nat
  listenUnix : Nat → UnixAddr → Except Error Listener
  dial : String → String → Except Error Unit
  remove : String → Option Error
  file : Listener → Option File × Option Error

/-- The system calls `UAPIOpen` makes, in order. -/
inductive Call where
  | mkdirAll (path : String) (perm : Nat)
  | umask (mask : Nat)
  | listenUnix (network : String) (addr : UnixAddr)
  | dial (network : String) (path : String)
  | remove (path : String)
  | file (l : Listener)
  deriving DecidableEq, Repr

/-- The package variable `socketDirectory`, computed once at start-up. -/
def socketDirectory (w : World) : String :=
  if w.xdgRuntimeDir ≠ "" then w.xdgRuntimeDir ++ "/wireguard-loop"
  else w.tempDir ++ "/wireguard-loop"

/-- The function `sockPath`: `fmt.Sprintf("%s/%s.sock", socketDirectory, iface)`. -/
def sockPath (w : World) (iface : String) : String :=
  socketDirectory w ++ "/" ++ iface ++ ".sock"

/-- What a run of `UAPIOpen` does and returns: the system calls made, and the
pair `(*os.File, error)`. -/
structure OpenResult where
  calls : List Call
  file : Option File
  err : Option Error
  deriving DecidableEq, Repr

/-- The function `UAPIOpen`.  The deferred `unix.Umask(oldUmask)` is the last call
of every run that got as far as `unix.Umask(0o077)`. -/
def UAPIOpen (w : World) (name : String) : OpenResult :=
  -- os.MkdirAll(socketDirectory, 0o755)
  match w.mkdirAll (socketDirectory w) 0o755 with
  | some err => ⟨[.mkdirAll (socketDirectory w) 0o755], none, some err⟩
  | none =>
    let socketPath := sockPath w name
    match ResolveUnixAddr "unix" socketPath with
    | .error err => ⟨[.mkdirAll (socketDirectory w) 0o755], none, some err⟩
    | .ok addr =>
      let pre : List Call := [.mkdirAll (socketDirectory w) 0o755, .umask 0o077]
      let restore : List Call := [.umask w.oldUmask]
      -- listener, err := net.ListenUnix("unix", addr); if err == nil { return listener.File() }
      match w.listenUnix 0 addr with
      | .ok listener =>
        ⟨pre ++ [.listenUnix "unix" addr, .file listener] ++ restore,
          (w.file listener).1, (w.file listener).2⟩
      | .error _ =>
        -- if _, err := net.Dial("unix", socketPath); err == nil { return nil, errors.New(...) }
        match w.dial "unix" socketPath with
        | .ok _ =>
          ⟨pre ++ [.listenUnix "unix" addr, .dial "unix" socketPath] ++ restore,
            none, some (.text "unix socket in use")⟩
        | .error _ =>
          -- if err := os.Remove(socketPath); err != nil { return nil, err }
          match w.remove socketPath with
          | some err =>
            ⟨pre ++ [.listenUnix "unix" addr, .dial "unix" socketPath, .remove socketPath]
              ++ restore, none, some err⟩
          | none =>
            -- listener, err = net.ListenUnix("unix", addr)
            match w.listenUnix 1 addr with
            | .error err =>
              ⟨pre ++ [.listenUnix "unix" addr, .dial "unix" socketPath, .remove socketPath,
                .listenUnix "unix" addr] ++ restore, none, some err⟩
            | .ok listener =>
              ⟨pre ++ [.listenUnix "unix" addr, .dial "unix" socketPath, .remove socketPath,
                .listenUnix "unix" addr, .file listener] ++ restore,
                (w.file listener).1, (w.file listener).2⟩

/-- Whether a call is a bind (`net.ListenUnix`). -/
def Call.isListen : Call → Bool
  | .listenUnix _ _ => true
  | _ => false

/-- Whether a call is a removal (`os.Remove`). -/
def Call.isRemove : Call → Bool
  | .remove _ => true
  | _ => false

end ipc

/-! ## `main.go`: set-up and daemonize decision -/

namespace cmd

/-- The constant `ExitSetupFailed`. -/
def ExitSetupFailed : Nat := 1

/-- The constant `ENV_WG_UAPI_FD`. -/
def ENV_WG_UAPI_FD : String := "WG_UAPI_FD"

/-- The constant `ENV_WG_UAPI_EP_FD`. -/
def ENV_WG_UAPI_EP_FD : String := "WG_UAPI_EP_FD"

/-- The constant `ENV_WG_PROCESS_FOREGROUND`. -/
def ENV_WG_PROCESS_FOREGROUND : String := "WG_PROCESS_FOREGROUND"

/-- Modelled from the spec: the log levels `device.LogLevelSilent`,
`device.LogLevelError` and `device.LogLevelVerbose` are declared in package
`device`, outside the sources; the spec names the levels silent, error and
verbose. -/
inductive LogLevel where
  | LogLevelSilent
  | LogLevelError
  | LogLevelVerbose
  deriving DecidableEq, Repr

/-- The library call `strconv.ParseUint(s, 10, 32)`: a non-empty string of decimal
digits whose value fits in 32 bits; `none` is a non-nil error. -/
def parseUint32 (s : String) : Option Nat :=
  if s = "" then none
  else if s.toList.all Char.isDigit then
    let v := s.toList.foldl (fun acc c => acc * 10 + (c.toNat - 48)) 0
    if v < 2 ^ 32 then some v else none
  else none

/-- The struct `os.ProcAttr`, with the fields `main` sets. -/
structure ProcAttr where
  Files : List File
  Dir : String
  Env : List String
  deriving DecidableEq, Repr

/-- What the process and the operating system present to `main`: the command
line `os.Args`, the environment as `os.Getenv` and `os.Environ` give it, what
answers the system calls of `ipc.UAPIOpen`, the file `os.Open(os.DevNull)` returns
(its error is discarded), the results of `os.Executable` and `os.StartProcess`
(whether it succeeds), and the constant `device.DefaultMTU`, declared outside the
sources. -/
structure OS where
  args : List String
  getenv : String → String
  environ : List String
  ipc : ipc.World
  openDevNull : File
  executable : Option String
  startProcess : String → List String → ProcAttr → Bool
  deviceDefaultMTU : Int

/-- What `main` does that can be observed from outside, in order.  The last action
of a run that reaches the construction of the protocol engine is `serve`: the
rest of `main` (accept loop and wait for termination) is not modelled. -/
inductive Action where
  | printVersion
  | printUsage
  | createLoop (name : String) (mtu : Int)
  | verbosef (format : String)
  | errorf (format : String)
  | exit (code : Nat)
  | uapiOpen (name : String) (calls : List ipc.Call)
  | startProcess (path : String) (argv : List String) (attr : ProcAttr)
  | release
  | serve (isEndpointFd : Bool) (fileUAPI : File)
  deriving DecidableEq, Repr

/-- The attributes `main` builds for the child process: the environment with the
two markers appended, and the standard streams followed by the UAPI file. -/
def childAttr (os : OS) (logLevel : LogLevel) (fileUAPI : File) : ProcAttr :=
  let env := os.environ ++ [ENV_WG_UAPI_FD ++ "=3"] ++ [ENV_WG_PROCESS_FOREGROUND ++ "=1"]
  let files : List File :=
    if os.getenv "LOG_LEVEL" ≠ "" ∧ logLevel ≠ .LogLevelSilent then
      [os.openDevNull, .stdout, .stderr]
    else
      [os.openDevNull, os.openDevNull, os.openDevNull]
  { Files := files ++ [fileUAPI], Dir := ".", Env := env }

/-- The part of `main` after the UAPI file has been obtained: the daemonize step,
or the hand-over to the protocol engine. -/
def daemonizeOrServe (os : OS) (foreground : Bool) (logLevel : LogLevel)
    (fileUAPI : File) (isEndpointFd : Bool) : List Action :=
  if !foreground && !isEndpointFd then
    let attr := childAttr os logLevel fileUAPI
    match os.executable with
    | none => [.errorf "Failed to determine executable: %v", .exit ExitSetupFailed]
    | some path =>
      if os.startProcess path os.args attr then
        [.startProcess path os.args attr, .release]
      else
        [.startProcess path os.args attr, .errorf "Failed to daemonize: %v",
          .exit ExitSetupFailed]
  else
    [.verbosef "Device started", .serve isEndpointFd fileUAPI]

/-- The function literal that computes `logLevel` in `main`. -/
def logLevel (os : OS) : LogLevel :=
  if os.getenv "LOG_LEVEL" = "verbose" ∨ os.getenv "LOG_LEVEL" = "debug" then .LogLevelVerbose
  else if os.getenv "LOG_LEVEL" = "error" then .LogLevelError
  else if os.getenv "LOG_LEVEL" = "silent" then .LogLevelSilent
  else .LogLevelError

/-- The part of `main` after the command line has been parsed. -/
def run (os : OS) (foreground : Bool) (interfaceName : String) : List Action :=
  let foreground :=
    if !foreground then decide (os.getenv ENV_WG_PROCESS_FOREGROUND = "1") else foreground
  let logLevel := logLevel os
  let created := loop.CreateLoop interfaceName os.deviceDefaultMTU
  let interfaceName :=
    match created.2 with
    | none =>
      match loop.Name created.1 with
      | (realInterfaceName, none) => realInterfaceName
      | _ => interfaceName
    | some _ => interfaceName
  let start : List Action :=
    [.createLoop interfaceName os.deviceDefaultMTU,
      .verbosef "Starting wireguard-loop-go version %s"]
  match created.2 with
  | some _ => start ++ [.errorf "Failed to create loop device: %v", .exit ExitSetupFailed]
  | none =>
    if os.getenv ENV_WG_UAPI_EP_FD ≠ "" then
      match parseUint32 (os.getenv ENV_WG_UAPI_EP_FD) with
      | none => start ++ [.errorf "Invalid WG_UAPI_EP_FD: %v", .exit ExitSetupFailed]
      | some fd => start ++ daemonizeOrServe os foreground logLevel (.fd fd) true
    else if os.getenv ENV_WG_UAPI_FD ≠ "" then
      match parseUint32 (os.getenv ENV_WG_UAPI_FD) with
      | none => start ++ [.errorf "Invalid WG_UAPI_FD: %v", .exit ExitSetupFailed]
      | some fd => start ++ daemonizeOrServe os foreground logLevel (.fd fd) false
    else
      let opened := ipc.UAPIOpen os.ipc interfaceName
      match opened.err with
      | some _ =>
        start ++ [.uapiOpen interfaceName opened.calls, .errorf "UAPI listen error: %v",
          .exit ExitSetupFailed]
      | none =>
        start ++ [.uapiOpen interfaceName opened.calls] ++
          daemonizeOrServe os foreground logLevel (opened.file.getD .nil) false

/-- The function `main` of `main.go` (non-Windows build), up to the construction of
the protocol engine. -/
def main (os : OS) : List Action :=
  if os.args.length = 2 ∧ os.args[1]? = some "--version" then [.printVersion]
  else if os.args.length < 2 ∨ os.args.length > 3 then [.printUsage]
  else if os.args[1]? = some "-f" ∨ os.args[1]? = some "--foreground" then
    if os.args.length ≠ 3 then [.printUsage]
    else run os true (os.args.getD 2 "")
  else
    if os.args.length ≠ 2 then [.printUsage]
    else run os false (os.args.getD 1 "")

end cmd

/-! ## Loop device: specification vocabulary and example inputs -/

namespace loop

/-- The contents of a buffer after a packet has been written at `offset`. -/
def deliverBuf (buf packet : List Byte) (offset : Nat) : List Byte :=
  buf.take offset ++ packet ++ buf.drop (offset + packet.length)

/-- Whether a packet fits in a buffer at `offset`: the negation of the test
`len(packet) > len(bufs[i])-offset` of `Read`. -/
def Fits (packet buf : List Byte) (offset : Int) : Prop :=
  (packet.length : Int) ≤ (buf.length : Int) - offset

instance (packet buf : List Byte) (offset : Int) : Decidable (Fits packet buf offset) := by
  unfold Fits; infer_instance

/-- Memory `bufs1, sizes1` is memory `bufs, sizes` with exactly the packets of
index `lo ≤ j < hi` written at `offset` and their lengths recorded. -/
def Delivered (packets : List (List Byte)) (offset : Nat) (lo hi : Nat)
    (bufs : List (List Byte)) (sizes : List Int)
    (bufs1 : List (List Byte)) (sizes1 : List Int) : Prop :=
  bufs1.length = bufs.length ∧ sizes1.length = sizes.length ∧
  (∀ j, lo ≤ j → j < hi →
    bufs1[j]? = (bufs[j]?).map (fun b => deliverBuf b (packets.getD j []) offset) ∧
    sizes1[j]? = (sizes[j]?).map (fun _ => (((packets.getD j []).length : Nat) : Int))) ∧
  (∀ j, ¬ (lo ≤ j ∧ j < hi) → bufs1[j]? = bufs[j]? ∧ sizes1[j]? = sizes[j]?)

/-- Device `d` with the contents of the queue `d.incoming` replaced by `q`. -/
def withQueue (d : Device) (q : List (List (List Byte))) : Device :=
  { d with incoming := { d.incoming with buf := q } }

/-- Invariant of the reachable device states: the three channels are closed
together and the queue respects its capacity of 128000 batches. -/
structure Inv (d : Device) : Prop where
  events_closed : d.events.closed = d.closed
  incoming_closed : d.incoming.closed = d.closed
  cap_eq : d.incoming.cap = 128000
  len_le : d.incoming.buf.length ≤ 128000

/-- The method `Close` called `n` times in a row: the final device, or `none` if
one of the calls faults or returns an error. -/
def closeTimes : Nat → Device → Option Device
  | 0, d => some d
  | n + 1, d =>
    match Close d with
    | .ret d1 none => closeTimes n d1
    | _ => none

/-- The arguments of one `Write` call, apart from the offset. -/
structure WriteCall where
  bufs : List (List Byte)
  pick : SelectCase

/-- The arguments of one `Read` call. -/
structure ReadCall where
  bufs : List (List Byte)
  sizes : List Int
  offset : Int
  pick : SelectCase

/-- Successive `Write` calls with one offset, one call per element of the list
(the buffers and the scheduler's pick of that call): the final device and the
outcomes in call order.  The run stops at the first call that does not return. -/
def writeSeq (offset : Int) : Device → List WriteCall →
    Device × List WriteOutcome
  | d, [] => (d, [])
  | d, w :: ws =>
    match Write d w.bufs offset w.pick with
    | .ret r => ((writeSeq offset r.dev ws).1, .ret r :: (writeSeq offset r.dev ws).2)
    | out => (d, [out])

/-- Successive `Read` calls: the final device and the outcomes in call order.  The
run stops at the first call that does not return. -/
def readSeq : Device → List ReadCall → Device × List ReadOutcome
  | d, [] => (d, [])
  | d, c :: cs =>
    match Read d c.bufs c.sizes c.offset c.pick with
    | .ret r => ((readSeq r.dev cs).1, .ret r :: (readSeq r.dev cs).2)
    | out => (d, [out])

/-- A `Read` call is adequate for the batch written from `bufs` at offset `o`: it
brings at least as many buffers and size slots as the batch has packets, and each
buffer holds its packet at the read offset. -/
def Adequate (o : Int) (bufs : List (List Byte)) (c : ReadCall) : Prop :=
  bufs.length ≤ c.bufs.length ∧ bufs.length ≤ c.sizes.length ∧ 0 ≤ c.offset ∧
  ∀ i, i < bufs.length →
    Fits ((bufs.getD i []).drop o.toNat) (c.bufs.getD i []) c.offset

/-- The returned values `r` of `Read` call `c` echo the batch written from `bufs`
at offset `o`: the count is the number of buffers written, the error is nil, and
for each `i` the size slot and the bytes at `bufs[i][offset:]` are the length and
the bytes of the written buffer from `o` to its end. -/
def Echoes (o : Int) (bufs : List (List Byte)) (c : ReadCall) (r : ReadRet) : Prop :=
  r.n = bufs.length ∧ r.err = none ∧
  ∀ i, i < bufs.length →
    r.sizes[i]? = some ((((bufs.getD i []).drop o.toNat).length : Nat) : Int) ∧
    ((r.bufs.getD i []).drop c.offset.toNat).take ((bufs.getD i []).drop o.toNat).length
      = (bufs.getD i []).drop o.toNat

/-- The device of the spec's concrete scenario, `CreateLoop("wg-test", 0)`. -/
def testDevice : Device := (CreateLoop "wg-test" 0).1

/-- The call `Write([[0x01,0x02,0x03]], 0)` of the spec's concrete scenario. -/
def testWrite : WriteCall := ⟨[[1, 2, 3]], .commCase⟩

/-- A `Read` call with one zeroed buffer of length 4 and one size slot. -/
def testRead : ReadCall := ⟨[[0, 0, 0, 0]], [0], 0, .commCase⟩

end loop

/-! ## UAPI socket bootstrap: specification vocabulary and example worlds -/

namespace ipc

/-- A world with a live listener on the socket path: the bind reports the address
in use and a client connection succeeds. -/
def liveWorld : World where
  xdgRuntimeDir := "/run/user/1000"
  tempDir := "/tmp"
  mkdirAll := fun _ _ => none
  oldUmask := 0o022
  listenUnix := fun _ _ => .error (.errno .EADDRINUSE)
  dial := fun _ _ => .ok ()
  remove := fun _ => none
  file := fun l => (some (.fd (l + 1)), none)

/-- A world in which the first bind fails for want of a free descriptor (not
because the path is in use), the client connection fails too, the removal
succeeds and the second bind succeeds. -/
def transientWorld : World where
  xdgRuntimeDir := "/run/user/1000"
  tempDir := "/tmp"
  mkdirAll := fun _ _ => none
  oldUmask := 0o022
  listenUnix := fun n _ => if n = 0 then .error (.errno .EMFILE) else .ok 7
  dial := fun _ _ => .error (.errno .EMFILE)
  remove := fun _ => none
  file := fun l => (some (.fd (l + 1)), none)

/-- A world with a stale socket file that the process may not delete: the bind
reports the address in use, the client connection is refused and the removal
fails. -/
def undeletableWorld : World where
  xdgRuntimeDir := ""
  tempDir := "/tmp"
  mkdirAll := fun _ _ => none
  oldUmask := 0o022
  listenUnix := fun _ _ => .error (.errno .EADDRINUSE)
  dial := fun _ _ => .error (.errno .ECONNREFUSED)
  remove := fun _ => some (.errno .EACCES)
  file := fun l => (some (.fd (l + 1)), none)

/-- A world with a stale socket file: the first bind reports the address in use,
the client connection is refused, the removal and the second bind succeed. -/
def staleWorld : World where
  xdgRuntimeDir := "/run/user/1000"
  tempDir := "/tmp"
  mkdirAll := fun _ _ => none
  oldUmask := 0o022
  listenUnix := fun n _ => if n = 0 then .error (.errno .EADDRINUSE) else .ok 7
  dial := fun _ _ => .error (.errno .ECONNREFUSED)
  remove := fun _ => none
  file := fun l => (some (.fd (l + 1)), none)

/-- Whether a permission mode grants access to the owner only: no group bit and
no bit for others is set. -/
def ownerOnly (perm : Nat) : Bool := perm &&& 0o077 == 0

/-- The runtime directory: `XDG_RUNTIME_DIR` when non-empty, else the platform
temp directory. -/
def runtimeDir (w : World) : String :=
  if w.xdgRuntimeDir ≠ "" then w.xdgRuntimeDir else w.tempDir

end ipc

/-! ## Daemonize decision: specification vocabulary and example environments -/

namespace cmd

/-- The command line carries the flag `-f` or `--foreground`. -/
def ForegroundFlag (args : List String) : Prop :=
  args[1]? = some "-f" ∨ args[1]? = some "--foreground"

instance (args : List String) : Decidable (ForegroundFlag args) := by
  unfold ForegroundFlag; infer_instance

/-- A valid command line, `PROGRAM [-f|--foreground] INTERFACE-NAME`: one that
`main` answers neither with the usage text nor with the version. -/
def ValidCommandLine (args : List String) : Prop :=
  (args.length = 3 ∧ ForegroundFlag args) ∨
  (args.length = 2 ∧ ¬ ForegroundFlag args ∧ args[1]? ≠ some "--version")

/-- The interface name of a valid command line. -/
def interfaceName (args : List String) : String :=
  if ForegroundFlag args then args.getD 2 "" else args.getD 1 ""

/-- A valid environment: a descriptor variable that is consulted holds a
descriptor number, and the set-up steps the run comes to succeed (`ipc.UAPIOpen`
when no descriptor is supplied, `os.Executable`, `os.StartProcess`). -/
def ValidEnvironment (os : OS) : Prop :=
  (os.getenv ENV_WG_UAPI_EP_FD ≠ "" → (parseUint32 (os.getenv ENV_WG_UAPI_EP_FD)).isSome) ∧
  (os.getenv ENV_WG_UAPI_EP_FD = "" → os.getenv ENV_WG_UAPI_FD ≠ "" →
    (parseUint32 (os.getenv ENV_WG_UAPI_FD)).isSome) ∧
  (os.getenv ENV_WG_UAPI_EP_FD = "" → os.getenv ENV_WG_UAPI_FD = "" →
    (ipc.UAPIOpen os.ipc (interfaceName os.args)).err = none) ∧
  os.executable.isSome ∧
  (∀ path argv attr, os.startProcess path argv attr = true)

/-- The run calls `os.StartProcess`. -/
def Spawns (os : OS) : Prop :=
  ∃ path argv attr, Action.startProcess path argv attr ∈ main os

/-- The run re-executes the program as a background child: `os.StartProcess` is
called and succeeds (the process handle is released). -/
def Daemonizes (os : OS) : Prop :=
  Spawns os ∧ Action.release ∈ main os

/-- The run calls `ipc.UAPIOpen`. -/
def CallsUAPIOpen (os : OS) : Prop :=
  ∃ name calls, Action.uapiOpen name calls ∈ main os

/-- The listening file a daemonizing run holds: the one for the descriptor in
`WG_UAPI_FD` when that variable is set, else the one `ipc.UAPIOpen` returned. -/
def listenerFile (os : OS) : File :=
  if os.getenv ENV_WG_UAPI_FD ≠ "" then
    .fd ((parseUint32 (os.getenv ENV_WG_UAPI_FD)).getD 0)
  else (ipc.UAPIOpen os.ipc (interfaceName os.args)).file.getD .nil

/-- A run `wireguard-loop-go wg0` with `WG_UAPI_EP_FD=7` and `WG_UAPI_FD=5`. -/
def endpointOS : OS where
  args := ["wireguard-loop-go", "wg0"]
  getenv := fun k => if k = "WG_UAPI_EP_FD" then "7" else if k = "WG_UAPI_FD" then "5" else ""
  environ := ["WG_UAPI_EP_FD=7", "WG_UAPI_FD=5"]
  ipc := ipc.staleWorld
  openDevNull := .devNull
  executable := some "/usr/bin/wireguard-loop-go"
  startProcess := fun _ _ _ => true
  deviceDefaultMTU := 1420

/-- A run `wireguard-loop-go wg0` with none of the variables `main` consults set. -/
def plainOS : OS where
  args := ["wireguard-loop-go", "wg0"]
  getenv := fun k => if k = "PATH" then "/usr/bin" else ""
  environ := ["PATH=/usr/bin"]
  ipc := ipc.staleWorld
  openDevNull := .devNull
  executable := some "/usr/bin/wireguard-loop-go"
  startProcess := fun _ _ _ => true
  deviceDefaultMTU := 1420

end cmd

/-! # Theorems -/

/-! ## Properties of the loop device -/

namespace loop

theorem copy_fit (buf packet : List Byte) (o : Nat) (h : packet.length + o ≤ buf.length) :
    buf.take o ++ copy (buf.drop o) packet = deliverBuf buf packet o := by
  unfold copy deliverBuf
  have h1 : packet.take (buf.drop o).length = packet := by
    apply List.take_of_length_le
    simp only [List.length_drop]; omega
  rw [h1, List.drop_drop, List.append_assoc]

theorem copy_replicate (buf : List Byte) (o : Nat) :
    copy (List.replicate (buf.length - o) 0) (buf.drop o) = buf.drop o := by
  unfold copy
  simp

theorem copyPackets_nonneg (offset : Int) (h : 0 ≤ offset) (bufs : List (List Byte)) :
    copyPackets offset bufs = some (bufs.map (fun b => b.drop offset.toNat)) := by
  induction bufs with
  | nil => rfl
  | cons buf rest ih =>
    unfold copyPackets
    by_cases h1 : offset ≥ (buf.length : Int)
    · have h2 : buf.drop offset.toNat = [] := by
        apply List.drop_of_length_le
        omega
      simp [h1, ih, h2]
    · have h3 : ¬ offset < 0 := by omega
      simp only [h1, h3, if_false, ih, copy_replicate, Option.map_some', List.map_cons]

theorem readLoop_step (packets : List (List Byte)) (offset : Int) (rem i : Nat)
    (bufs : List (List Byte)) (sizes : List Int) (packet buf : List Byte)
    (ho : 0 ≤ offset) (hs : i < sizes.length) (hp : packets[i]? = some packet)
    (hb : bufs[i]? = some buf) (hfit : Fits packet buf offset) :
    readLoop packets offset (rem + 1) i bufs sizes =
      readLoop packets offset rem (i + 1) (bufs.set i (deliverBuf buf packet offset.toNat))
        (sizes.set i (packet.length : Int)) := by
  unfold Fits at hfit
  have h1 : ¬ i ≥ sizes.length := by omega
  have h2 : ¬ ((packet.length : Int) > (buf.length : Int) - offset) := by omega
  have h3 : ¬ (offset < 0 ∨ offset > (buf.length : Int)) := by omega
  have h4 : packet.length + offset.toNat ≤ buf.length := by omega
  rw [readLoop]
  simp only [h1, if_false, hp, hb, h2, h3, copy_fit buf packet offset.toNat h4]

theorem Delivered.refl (packets : List (List Byte)) (offset i : Nat)
    (bufs : List (List Byte)) (sizes : List Int) :
    Delivered packets offset i i bufs sizes bufs sizes := by
  refine ⟨rfl, rfl, ?_, ?_⟩
  · intro j h1 h2; omega
  · intro j _; exact ⟨rfl, rfl⟩

theorem Delivered.step (packets : List (List Byte)) (offset i s : Nat)
    (bufs : List (List Byte)) (sizes : List Int) (bufs1 : List (List Byte)) (sizes1 : List Int)
    (packet buf : List Byte) (hp : packets[i]? = some packet) (hb : bufs[i]? = some buf)
    (hs : i < sizes.length) (his : i + 1 ≤ s)
    (h : Delivered packets offset (i + 1) s (bufs.set i (deliverBuf buf packet offset))
      (sizes.set i (packet.length : Int)) bufs1 sizes1) :
    Delivered packets offset i s bufs sizes bufs1 sizes1 := by
  obtain ⟨hl1, hl2, hin, hout⟩ := h
  have hpD : packets.getD i [] = packet := by
    simp [List.getD, hp]
  have hbl : i < bufs.length := by
    rcases Nat.lt_or_ge i bufs.length with h | h
    · exact h
    · rw [List.getElem?_eq_none h] at hb; cases hb
  refine ⟨by simpa using hl1, by simpa using hl2, ?_, ?_⟩
  · intro j h1 h2
    rcases Nat.eq_or_lt_of_le h1 with h3 | h3
    · subst h3
      have := hout i (by omega)
      rw [this.1, this.2, hb]
      simp [hp, hs, hbl]
    · have := hin j (by omega) h2
      rw [this.1, this.2]
      have hne : i ≠ j := by omega
      simp [List.getElem?_set_ne hne]
  · intro j hj
    have hne : i ≠ j := by omega
    have := hout j (by omega)
    rw [this.1, this.2]
    simp [List.getElem?_set_ne hne]

/-- The loop of `Read` for a non-negative offset: it delivers the packets of index
`i ≤ j < s` and stops at `s`, which is the end of the range, the first index
without a size slot, or the first oversize packet. -/
theorem readLoop_run (packets : List (List Byte)) (offset : Int) (ho : 0 ≤ offset) :
    ∀ (rem i : Nat) (bufs : List (List Byte)) (sizes : List Int),
      i + rem ≤ packets.length → i + rem ≤ bufs.length →
      ∃ (s : Nat) (bufs1 : List (List Byte)) (sizes1 : List Int),
        i ≤ s ∧ s ≤ i + rem ∧
        Delivered packets offset.toNat i s bufs sizes bufs1 sizes1 ∧
        (∀ j, i ≤ j → j < s →
          j < sizes.length ∧ Fits (packets.getD j []) (bufs.getD j []) offset) ∧
        ((s = i + rem ∧ readLoop packets offset rem i bufs sizes = .done bufs1 sizes1) ∨
         (s < i + rem ∧ sizes.length ≤ s ∧
            readLoop packets offset rem i bufs sizes = .done bufs1 sizes1) ∨
         (s < i + rem ∧ s < sizes.length ∧
            ¬ Fits (packets.getD s []) (bufs.getD s []) offset ∧
            readLoop packets offset rem i bufs sizes = .tooLarge bufs1 sizes1)) := by
  intro rem
  induction rem with
  | zero =>
    intro i bufs sizes _ _
    refine ⟨i, bufs, sizes, le_refl _, le_refl _, Delivered.refl _ _ _ _ _, ?_, ?_⟩
    · intro j h1 h2; omega
    · left; exact ⟨rfl, rfl⟩
  | succ rem ih =>
    intro i bufs sizes hpl hbl
    have hip : i < packets.length := by omega
    have hib : i < bufs.length := by omega
    have hp : packets[i]? = some packets[i] := List.getElem?_eq_getElem hip
    have hb : bufs[i]? = some bufs[i] := List.getElem?_eq_getElem hib
    have hpD : packets.getD i [] = packets[i] := by simp [List.getD, hp]
    have hbD : bufs.getD i [] = bufs[i] := by simp [List.getD, hb]
    by_cases hs : i ≥ sizes.length
    · refine ⟨i, bufs, sizes, le_refl _, by omega, Delivered.refl _ _ _ _ _, ?_, ?_⟩
      · intro j h1 h2; omega
      · right; left
        refine ⟨by omega, hs, ?_⟩
        rw [readLoop]; simp [hs]
    · by_cases hfit : Fits packets[i] bufs[i] offset
      · obtain ⟨s, bufs1, sizes1, h1, h2, hd, hall, hres⟩ :=
          ih (i + 1) (bufs.set i (deliverBuf bufs[i] packets[i] offset.toNat))
            (sizes.set i (packets[i].length : Int)) (by omega) (by simp; omega)
        have hstep := readLoop_step packets offset rem i bufs sizes packets[i] bufs[i]
          ho (by omega) hp hb hfit
        refine ⟨s, bufs1, sizes1, by omega, by omega,
          Delivered.step packets offset.toNat i s bufs sizes bufs1 sizes1 packets[i] bufs[i]
            hp hb (by omega) h1 hd, ?_, ?_⟩
        · intro j hj1 hj2
          rcases Nat.eq_or_lt_of_le hj1 with h3 | h3
          · subst h3
            exact ⟨by omega, by rw [hpD, hbD]; exact hfit⟩
          · have := hall j (by omega) hj2
            have hne : i ≠ j := by omega
            refine ⟨by simpa using this.1, ?_⟩
            have h4 := this.2
            simpa [List.getD, List.getElem?_set_ne hne] using h4
        · rw [hstep]
          rcases hres with ⟨e1, e2⟩ | ⟨e1, e2, e3⟩ | ⟨e1, e2, e3, e4⟩
          · left; exact ⟨by omega, e2⟩
          · right; left; exact ⟨by omega, by simpa using e2, e3⟩
          · right; right
            have hne : i ≠ s := by omega
            refine ⟨by omega, by simpa using e2, ?_, e4⟩
            simpa [List.getD, List.getElem?_set_ne hne] using e3
      · refine ⟨i, bufs, sizes, le_refl _, by omega, Delivered.refl _ _ _ _ _, ?_, ?_⟩
        · intro j h1 h2; omega
        · right; right
          refine ⟨by omega, by omega, by rw [hpD, hbD]; exact hfit, ?_⟩
          have h1 : ¬ i ≥ sizes.length := hs
          have h2 : (packets[i].length : Int) > (bufs[i].length : Int) - offset := by
            unfold Fits at hfit; omega
          rw [readLoop]
          simp only [h1, if_false, hp, hb, h2, if_true]

/-- On an open device with a queued batch only the receive case of `Read` is
ready. -/
theorem select_open_queued (d : Device) (batch : List (List Byte))
    (rest : List (List (List Byte))) (pick : SelectCase)
    (hopen : d.closed = false) (hq : d.incoming.buf = batch :: rest) :
    select2 d.closed d.incoming.recvReady pick = some .commCase := by
  simp [select2, Chan.recvReady, hopen, hq]

/-- A `Read` whose `select` runs the receive case with a batch queued dequeues the
head batch and runs the delivery loop on it. -/
theorem Read_dequeue (d : Device) (batch : List (List Byte)) (rest : List (List (List Byte)))
    (bufs : List (List Byte)) (sizes : List Int) (offset : Int) (pick : SelectCase)
    (hsel : select2 d.closed d.incoming.recvReady pick = some .commCase)
    (hq : d.incoming.buf = batch :: rest) :
    Read d bufs sizes offset pick =
      match readLoop batch offset (min batch.length bufs.length) 0 bufs sizes with
      | .done bufs1 sizes1 =>
        .ret ⟨withQueue d rest, bufs1, sizes1, min batch.length bufs.length, none⟩
      | .tooLarge bufs1 sizes1 => .ret ⟨withQueue d rest, bufs1, sizes1, 0, some .packetTooLarge⟩
      | .panic => .panic := by
  have hn : (if batch.length > bufs.length then bufs.length else batch.length)
      = min batch.length bufs.length := by
    split <;> omega
  unfold Read
  rw [hsel]
  simp only [hq, Chan.recv, hn, withQueue]

theorem Delivered.get (packets : List (List Byte)) (offset lo hi : Nat)
    (bufs : List (List Byte)) (sizes : List Int) (bufs1 : List (List Byte)) (sizes1 : List Int)
    (h : Delivered packets offset lo hi bufs sizes bufs1 sizes1) (j : Nat)
    (h1 : lo ≤ j) (h2 : j < hi) (hb : j < bufs.length) (hs : j < sizes.length) :
    bufs1[j]? = some (deliverBuf (bufs.getD j []) (packets.getD j []) offset) ∧
    sizes1[j]? = some (((packets.getD j []).length : Nat) : Int) := by
  obtain ⟨_, _, hin, _⟩ := h
  have := hin j h1 h2
  rw [this.1, this.2]
  simp [List.getD, List.getElem?_eq_getElem hb, List.getElem?_eq_getElem hs]

/-- A `Read` with offset ≥ 0 that dequeues a batch with no oversize packet delivers
every packet of index below `min(batch length, buffer count)` that has a size
slot. -/
theorem Read_no_oversize (d : Device) (batch : List (List Byte)) (rest : List (List (List Byte)))
    (bufs : List (List Byte)) (sizes : List Int) (offset : Int) (pick : SelectCase)
    (hsel : select2 d.closed d.incoming.recvReady pick = some .commCase)
    (hq : d.incoming.buf = batch :: rest) (ho : 0 ≤ offset)
    (hfit : ∀ i, i < min batch.length bufs.length →
      Fits (batch.getD i []) (bufs.getD i []) offset) :
    ∃ r, Read d bufs sizes offset pick = .ret r ∧ r.dev = withQueue d rest ∧
      r.n = min batch.length bufs.length ∧ r.err = none ∧
      ∀ i, i < r.n → i < sizes.length →
        r.bufs[i]? = some (deliverBuf (bufs.getD i []) (batch.getD i []) offset.toNat) ∧
        r.sizes[i]? = some (((batch.getD i []).length : Nat) : Int) := by
  obtain ⟨s, bufs1, sizes1, _, h2, hd, hall, hres⟩ :=
    readLoop_run batch offset ho (min batch.length bufs.length) 0 bufs sizes
      (by omega) (by omega)
  rw [Read_dequeue d batch rest bufs sizes offset pick hsel hq]
  rcases hres with ⟨e1, e2⟩ | ⟨e1, e2, e3⟩ | ⟨e1, _, e3, _⟩
  · rw [e2]
    refine ⟨_, rfl, rfl, rfl, rfl, ?_⟩
    intro i hi1 hi2
    have hi1 : i < min batch.length bufs.length := hi1
    exact hd.get _ _ _ _ _ _ _ _ i (Nat.zero_le _) (by omega) (by omega) hi2
  · rw [e3]
    refine ⟨_, rfl, rfl, rfl, rfl, ?_⟩
    intro i hi1 hi2
    have hi1 : i < min batch.length bufs.length := hi1
    exact hd.get _ _ _ _ _ _ _ _ i (Nat.zero_le _) (by omega) (by omega) hi2
  · exact absurd (hfit s (by omega)) e3

/-- C3 (amended): a `Read` with offset ≥ 0 that dequeues a batch (its `select` runs
the receive on `incoming` and `batch` is at the head of the queue) whose first
oversize packet has index `i < min(batch length, buffer count)` and has a size
slot (`i < len(sizes)`) returns count 0 and the packet-too-large error without
faulting; the packets before `i` have been written at `offset` in their buffers
(all other bytes of these buffers kept) with their lengths in the size slots, and
buffers and size slots of index `≥ i` are unchanged. -/
theorem Read_oversize (d : Device) (batch : List (List Byte)) (rest : List (List (List Byte)))
    (bufs : List (List Byte)) (sizes : List Int) (offset : Int) (pick : SelectCase) (i : Nat)
    (hsel : select2 d.closed d.incoming.recvReady pick = some .commCase)
    (hq : d.incoming.buf = batch :: rest) (ho : 0 ≤ offset)
    (hi : i < min batch.length bufs.length) (hslot : i < sizes.length)
    (hbig : ¬ Fits (batch.getD i []) (bufs.getD i []) offset)
    (hfirst : ∀ j, j < i → Fits (batch.getD j []) (bufs.getD j []) offset) :
    ∃ r, Read d bufs sizes offset pick = .ret r ∧ r.dev = withQueue d rest ∧
      r.n = 0 ∧ r.err = some .packetTooLarge ∧
      r.bufs.length = bufs.length ∧ r.sizes.length = sizes.length ∧
      (∀ j, j < i →
        r.bufs[j]? = some (deliverBuf (bufs.getD j []) (batch.getD j []) offset.toNat) ∧
        r.sizes[j]? = some (((batch.getD j []).length : Nat) : Int)) ∧
      (∀ j, i ≤ j → r.bufs[j]? = bufs[j]? ∧ r.sizes[j]? = sizes[j]?) := by
  obtain ⟨s, bufs1, sizes1, _, h2, hd, hall, hres⟩ :=
    readLoop_run batch offset ho (min batch.length bufs.length) 0 bufs sizes
      (by omega) (by omega)
  have hsi : s = i := by
    rcases hres with ⟨e1, _⟩ | ⟨e1, e2, _⟩ | ⟨e1, _, e3, _⟩
    · exact absurd (hall i (Nat.zero_le _) (by omega)).2 hbig
    · exact absurd (hall i (Nat.zero_le _) (by omega)).2 hbig
    · rcases Nat.lt_trichotomy s i with h | h | h
      · exact absurd (hfirst s h) e3
      · exact h
      · exact absurd (hall i (Nat.zero_le _) h).2 hbig
  subst hsi
  rw [Read_dequeue d batch rest bufs sizes offset pick hsel hq]
  rcases hres with ⟨e1, _⟩ | ⟨_, e2, _⟩ | ⟨_, _, _, e4⟩
  · omega
  · omega
  · rw [e4]
    refine ⟨_, rfl, rfl, rfl, rfl, hd.1, hd.2.1, ?_, ?_⟩
    · intro j hj
      exact hd.get _ _ _ _ _ _ _ _ j (Nat.zero_le _) hj (by omega) (by omega)
    · intro j hj
      exact hd.2.2.2 j (by omega)

theorem Read_dev (d : Device) (bufs : List (List Byte)) (sizes : List Int) (offset : Int)
    (pick : SelectCase) (r : ReadRet) (h : Read d bufs sizes offset pick = .ret r) :
    r.dev = d ∨ r.dev = withQueue d d.incoming.buf.tail := by
  unfold Read at h
  split at h
  · cases h
  · cases h; left; rfl
  · right
    have hrecv : { d with incoming := (d.incoming.recv []).2 }
        = withQueue d d.incoming.buf.tail := by
      obtain ⟨ev, cl, mtu, nm, ⟨buf, cap, c⟩⟩ := d
      cases buf <;> rfl
    simp only at h
    split at h
    · cases h; exact hrecv
    · cases h; exact hrecv
    · cases h

theorem sendSelect_dev (d : Device) (packets : List (List Byte)) (count : Nat)
    (pick : SelectCase) (r : WriteRet) (h : sendSelect d packets count pick = .ret r) :
    r.dev = d ∨ (d.incoming.closed = false ∧ d.incoming.buf.length < d.incoming.cap ∧
      r.dev = withQueue d (d.incoming.buf ++ [packets])) := by
  unfold sendSelect at h
  split at h
  · cases h
  · cases h; left; rfl
  · rename_i hsel
    split at h
    · cases h
    · rename_i hc
      cases h
      right
      have hc : d.incoming.closed = false := by simpa using hc
      refine ⟨hc, ?_, rfl⟩
      unfold select2 Chan.sendReady at hsel
      rw [hc] at hsel
      by_cases hlt : d.incoming.buf.length < d.incoming.cap
      · exact hlt
      · cases hcl : d.closed <;> simp [hcl, hlt] at hsel

theorem Write_dev (d : Device) (bufs : List (List Byte)) (offset : Int)
    (pick : SelectCase) (r : WriteRet) (h : Write d bufs offset pick = .ret r) :
    r.dev = d ∨ (d.incoming.closed = false ∧ d.incoming.buf.length < d.incoming.cap ∧
      ∃ packets, r.dev = withQueue d (d.incoming.buf ++ [packets])) := by
  unfold Write at h
  split at h
  · cases h; left; rfl
  · split at h
    · cases h
    · rename_i packets _
      rcases sendSelect_dev d packets bufs.length pick r h with h1 | ⟨h1, h2, h3⟩
      · left; exact h1
      · right; exact ⟨h1, h2, packets, h3⟩

theorem Inv.withQueue {d : Device} (h : Inv d) (q : List (List (List Byte)))
    (hq : q.length ≤ 128000) : Inv (withQueue d q) :=
  ⟨h.events_closed, h.incoming_closed, h.cap_eq, hq⟩

/-- Every reachable device state satisfies the invariant. -/
theorem Reachable.inv {d : Device} (h : Reachable d) : Inv d := by
  induction h with
  | create name mtu => exact ⟨rfl, rfl, rfl, by simp [CreateLoop, Chan.make]⟩
  | read bufs sizes offset pick _ hr ih =>
    rcases Read_dev _ _ _ _ _ _ hr with h1 | h1
    · rw [h1]; exact ih
    · rw [h1]
      apply ih.withQueue
      have := ih.len_le
      simp only [List.length_tail]; omega
  | write bufs offset pick _ hw ih =>
    rcases Write_dev _ _ _ _ _ hw with h1 | ⟨_, h2, packets, h3⟩
    · rw [h1]; exact ih
    · rw [h3]
      apply ih.withQueue
      have := ih.cap_eq
      simp only [List.length_append, List.length_singleton]; omega
  | resume packets count pick _ hw ih =>
    rcases sendSelect_dev _ _ _ _ _ hw with h1 | ⟨_, h2, h3⟩
    · rw [h1]; exact ih
    · rw [h3]
      apply ih.withQueue
      have := ih.cap_eq
      simp only [List.length_append, List.length_singleton]; omega
  | @close d0 d1 e _ hc ih =>
    unfold Close at hc
    split at hc
    · cases hc; exact ih
    · have he : d0.events.closed = false := by rw [ih.events_closed]; simp_all
      have hi : d0.incoming.closed = false := by rw [ih.incoming_closed]; simp_all
      simp only [closeSignal, Chan.close, he, hi] at hc
      cases hc
      exact ⟨rfl, rfl, ih.cap_eq, ih.len_le⟩

theorem sendSelect_room (d : Device) (packets : List (List Byte)) (count : Nat)
    (pick : SelectCase) (hopen : d.closed = false) (hic : d.incoming.closed = false)
    (hroom : d.incoming.buf.length < d.incoming.cap) :
    sendSelect d packets count pick =
      .ret ⟨withQueue d (d.incoming.buf ++ [packets]), count, none⟩ := by
  simp [sendSelect, select2, Chan.sendReady, hopen, hic, hroom, withQueue, Chan.send]

theorem Write_open (d : Device) (bufs : List (List Byte)) (offset : Int) (pick : SelectCase)
    (hopen : d.closed = false) (ho : 0 ≤ offset) :
    Write d bufs offset pick =
      sendSelect d (bufs.map (fun b => b.drop offset.toNat)) bufs.length pick := by
  simp [Write, hopen, copyPackets_nonneg offset ho]

theorem Close_closed (d : Device) (h : d.closed = true) : Close d = .ret d none := by
  simp [Close, h]

theorem Close_open (d : Device) (hi : Inv d) (h : d.closed = false) :
    Close d = .ret { d with closed := true, events := { d.events with closed := true },
                            incoming := { d.incoming with closed := true } } none := by
  have he : d.events.closed = false := by rw [hi.events_closed]; exact h
  have hc : d.incoming.closed = false := by rw [hi.incoming_closed]; exact h
  simp [Close, h, closeSignal, Chan.close, he, hc]

theorem closeTimes_closed (d : Device) (h : d.closed = true) (n : Nat) :
    closeTimes n d = some d := by
  induction n with
  | zero => rfl
  | succ n ih => simp [closeTimes, Close_closed d h, ih]

/-- C5: in every reachable device state `Close` returns nil and leaves the device
closed; on a device that is already closed it returns nil and changes nothing, so
a second `Close` returns what the first left, as do any number of further calls. -/
theorem Close_idempotent (d : Device) (h : Reachable d) :
    (∃ d1, Close d = .ret d1 none ∧ d1.closed = true ∧ Close d1 = .ret d1 none ∧
      ∀ n, closeTimes (n + 1) d = some d1) ∧
    (d.closed = true → Close d = .ret d none) := by
  refine ⟨?_, Close_closed d⟩
  cases hc : d.closed
  · refine ⟨_, Close_open d h.inv hc, rfl, Close_closed _ rfl, ?_⟩
    intro n
    simp only [closeTimes, Close_open d h.inv hc]
    exact closeTimes_closed _ rfl n
  · refine ⟨d, Close_closed d hc, hc, Close_closed d hc, ?_⟩
    intro n
    exact closeTimes_closed d hc (n + 1)

theorem deliverBuf_window (buf packet : List Byte) (o : Nat)
    (h : packet.length + o ≤ buf.length) :
    ((deliverBuf buf packet o).drop o).take packet.length = packet := by
  unfold deliverBuf
  have h1 : (buf.take o).length = o := by simp; omega
  rw [List.append_assoc, List.drop_append_of_le_length (by omega)]
  rw [List.drop_of_length_le (by omega), List.nil_append]
  simp

theorem getD_map_drop (bufs : List (List Byte)) (o i : Nat) :
    (bufs.map (fun b => b.drop o)).getD i [] = (bufs.getD i []).drop o := by
  simp only [List.getD_eq_getElem?_getD, List.getElem?_map]
  generalize bufs[i]? = x
  cases x <;> simp

/-- One `Read` that is adequate for the batch at the head of the queue echoes it. -/
theorem Read_echo (d : Device) (o : Int) (wbufs : List (List Byte))
    (rest : List (List (List Byte))) (c : ReadCall)
    (hopen : d.closed = false)
    (hq : d.incoming.buf = wbufs.map (fun b => b.drop o.toNat) :: rest)
    (ha : Adequate o wbufs c) :
    ∃ r, Read d c.bufs c.sizes c.offset c.pick = .ret r ∧ r.dev = withQueue d rest ∧
      Echoes o wbufs c r := by
  obtain ⟨h1, h2, h3, h4⟩ := ha
  have hmin : min (wbufs.map (fun b => b.drop o.toNat)).length c.bufs.length = wbufs.length := by
    simp only [List.length_map]; omega
  obtain ⟨r, hr, hdev, hn, herr, hall⟩ :=
    Read_no_oversize d _ rest c.bufs c.sizes c.offset c.pick
      (select_open_queued d _ rest c.pick hopen hq) hq h3 (by
      intro i hi
      rw [hmin] at hi
      rw [getD_map_drop]
      exact h4 i hi)
  rw [hmin] at hn
  refine ⟨r, hr, hdev, hn, herr, ?_⟩
  intro i hi
  have := hall i (by omega) (by omega)
  rw [getD_map_drop] at this
  refine ⟨this.2, ?_⟩
  have hfit := h4 i hi
  unfold Fits at hfit
  have hb : r.bufs.getD i [] =
      deliverBuf (c.bufs.getD i []) ((wbufs.getD i []).drop o.toNat) c.offset.toNat := by
    simp [List.getD_eq_getElem?_getD, this.1]
  rw [hb]
  exact deliverBuf_window _ _ _ (by omega)

theorem writeSeq_open (o : Int) (ho : 0 ≤ o) :
    ∀ (ws : List WriteCall) (d : Device),
      d.closed = false → d.incoming.closed = false →
      d.incoming.buf.length + ws.length ≤ d.incoming.cap →
      (writeSeq o d ws).1 =
        withQueue d (d.incoming.buf ++ ws.map (fun w => w.bufs.map (fun b => b.drop o.toNat))) ∧
      (writeSeq o d ws).2.length = ws.length ∧
      ∀ (k : Nat) (w : WriteCall), ws[k]? = some w →
        ∃ r, (writeSeq o d ws).2[k]? = some (.ret r) ∧ r.n = w.bufs.length ∧ r.err = none := by
  intro ws
  induction ws with
  | nil =>
    intro d _ _ _
    refine ⟨by simp [writeSeq, withQueue], rfl, ?_⟩
    intro k w hk
    simp at hk
  | cons w ws ih =>
    intro d hopen hic hroom
    simp only [List.length_cons] at hroom
    have hw : Write d w.bufs o w.pick =
        .ret ⟨withQueue d (d.incoming.buf ++ [w.bufs.map (fun b => b.drop o.toNat)]),
          w.bufs.length, none⟩ := by
      rw [Write_open d w.bufs o w.pick hopen ho]
      exact sendSelect_room d _ _ _ hopen hic (by omega)
    obtain ⟨ih1, ihl, ih2⟩ :=
      ih (withQueue d (d.incoming.buf ++ [w.bufs.map (fun b => b.drop o.toNat)]))
      hopen hic (by simp only [withQueue, List.length_append, List.length_singleton]; omega)
    simp only [writeSeq, hw]
    refine ⟨?_, by simp [ihl], ?_⟩
    · rw [ih1]
      simp [withQueue]
    · intro k x hk
      cases k with
      | zero =>
        simp only [List.getElem?_cons_zero, Option.some.injEq] at hk
        subst hk
        exact ⟨⟨withQueue d (d.incoming.buf ++ [w.bufs.map (fun b => b.drop o.toNat)]),
          w.bufs.length, none⟩, by simp, rfl, rfl⟩
      | succ k =>
        simp only [List.getElem?_cons_succ] at hk
        obtain ⟨r, hr1, hr2, hr3⟩ := ih2 k x hk
        exact ⟨r, by simpa using hr1, hr2, hr3⟩

theorem readSeq_echo (o : Int) :
    ∀ (ws : List WriteCall) (cs : List ReadCall) (d : Device)
      (tail : List (List (List Byte))),
      d.closed = false →
      d.incoming.buf = ws.map (fun w => w.bufs.map (fun b => b.drop o.toNat)) ++ tail →
      cs.length = ws.length →
      (∀ (k : Nat) (w : WriteCall) (c : ReadCall),
        ws[k]? = some w → cs[k]? = some c → Adequate o w.bufs c) →
      (readSeq d cs).2.length = ws.length ∧
      ∀ (k : Nat) (w : WriteCall) (c : ReadCall), ws[k]? = some w → cs[k]? = some c →
        ∃ r, (readSeq d cs).2[k]? = some (.ret r) ∧ Echoes o w.bufs c r := by
  intro ws
  induction ws with
  | nil =>
    intro cs d tail _ _ hlen _
    have : cs = [] := List.eq_nil_of_length_eq_zero hlen
    subst this
    refine ⟨rfl, ?_⟩
    intro k w c hk
    simp at hk
  | cons w ws ih =>
    intro cs d tail hopen hq hlen hadq
    cases cs with
    | nil => simp at hlen
    | cons c0 cs =>
      simp only [List.map_cons, List.cons_append] at hq
      obtain ⟨r, hr, hdev, hecho⟩ :=
        Read_echo d o w.bufs _ c0 hopen hq (hadq 0 w c0 (by simp) (by simp))
      obtain ⟨ihl, ih2⟩ := ih cs r.dev tail (by rw [hdev]; exact hopen)
        (by rw [hdev]; rfl) (by simpa using hlen)
        (fun j y cj hy hcj => hadq (j + 1) y cj (by simpa using hy) (by simpa using hcj))
      simp only [readSeq, hr]
      refine ⟨by simp [ihl], ?_⟩
      intro k x c hk hc
      cases k with
      | zero =>
        simp only [List.getElem?_cons_zero, Option.some.injEq] at hk hc
        subst hk; subst hc
        exact ⟨r, by simp, hecho⟩
      | succ k =>
        simp only [List.getElem?_cons_succ] at hk hc
        obtain ⟨r1, hr1, he1⟩ := ih2 k x c hk hc
        exact ⟨r1, by simpa using hr1, he1⟩

/-- C1: on a device returned by `CreateLoop`, for a write offset `o ≥ 0`, `N ≤ 128000`
`Write` calls followed by `N` adequate `Read` calls (whatever the scheduler picks):
every `Write` returns `(len(bufs), nil)`, and the `k`-th `Read` returns the echo of
the `k`-th `Write`: its buffer count with a nil error, and in each size slot and
buffer the length and bytes of the written buffer from `o` to its end. -/
theorem fifo_echo (name : String) (mtu : Int) (o : Int)
    (ws : List WriteCall) (cs : List ReadCall)
    (ho : 0 ≤ o) (hN : ws.length ≤ 128000) (hlen : cs.length = ws.length)
    (hadq : ∀ (k : Nat) (w : WriteCall) (c : ReadCall),
      ws[k]? = some w → cs[k]? = some c → Adequate o w.bufs c) :
    ((writeSeq o (CreateLoop name mtu).1 ws).2.length = ws.length ∧
     ∀ (k : Nat) (w : WriteCall), ws[k]? = some w →
      ∃ r, (writeSeq o (CreateLoop name mtu).1 ws).2[k]? = some (.ret r) ∧
        r.n = w.bufs.length ∧ r.err = none) ∧
    ((readSeq (writeSeq o (CreateLoop name mtu).1 ws).1 cs).2.length = ws.length ∧
     ∀ (k : Nat) (w : WriteCall) (c : ReadCall), ws[k]? = some w → cs[k]? = some c →
      ∃ r, (readSeq (writeSeq o (CreateLoop name mtu).1 ws).1 cs).2[k]? = some (.ret r) ∧
        Echoes o w.bufs c r) := by
  obtain ⟨h1, h2⟩ := writeSeq_open o ho ws (CreateLoop name mtu).1 rfl rfl
    (by simpa [CreateLoop, Chan.make] using hN)
  refine ⟨h2, ?_⟩
  rw [h1]
  exact readSeq_echo o ws cs _ [] rfl (by simp [withQueue, CreateLoop, Chan.make]) hlen hadq

theorem fifo_echo_witness :
    ((writeSeq 0 (CreateLoop "wg-test" 0).1 [testWrite]).2.length = [testWrite].length ∧
     ∀ (k : Nat) (w : WriteCall), [testWrite][k]? = some w →
      ∃ r, (writeSeq 0 (CreateLoop "wg-test" 0).1 [testWrite]).2[k]? = some (.ret r) ∧
        r.n = w.bufs.length ∧ r.err = none) ∧
    ((readSeq (writeSeq 0 (CreateLoop "wg-test" 0).1 [testWrite]).1 [testRead]).2.length
        = [testWrite].length ∧
     ∀ (k : Nat) (w : WriteCall) (c : ReadCall),
      [testWrite][k]? = some w → [testRead][k]? = some c →
      ∃ r, (readSeq (writeSeq 0 (CreateLoop "wg-test" 0).1 [testWrite]).1 [testRead]).2[k]?
          = some (.ret r) ∧ Echoes 0 w.bufs c r) :=
  fifo_echo "wg-test" 0 0 [testWrite] [testRead] (by decide) (by decide) rfl (by
    intro k w c hk hc
    cases k with
    | zero =>
      simp only [List.getElem?_cons_zero, Option.some.injEq] at hk hc
      subst hk; subst hc
      refine ⟨by decide, by decide, by decide, ?_⟩
      intro i hi
      have hi0 : i = 0 := by simpa [testWrite] using hi
      subst hi0
      decide
    | succ k => simp at hk)

/-- C2: after `Close` has returned, a `Read` whose `select` runs the receive on the
closed channel `incoming` returns a nil error: `(0, nil)` on the drained queue,
and `(1, nil)` with the queued batch delivered when one was still queued; only
when `select` runs the receive on `closed` is the closed-pipe error returned.
`Write` returns the closed-pipe error whatever the scheduler picks. -/
theorem Read_after_Close_nil_error :
    (∃ d, Close testDevice = .ret d none ∧
      Read d [[0, 0, 0]] [0] 0 .commCase = .ret ⟨d, [[0, 0, 0]], [0], 0, none⟩ ∧
      Read d [[0, 0, 0]] [0] 0 .closedCase =
        .ret ⟨d, [[0, 0, 0]], [0], 0, some .ErrClosedPipe⟩ ∧
      Write d [[1, 2, 3]] 0 .commCase = .ret ⟨d, 0, some .ErrClosedPipe⟩ ∧
      Write d [[1, 2, 3]] 0 .closedCase = .ret ⟨d, 0, some .ErrClosedPipe⟩) ∧
    (∃ d1 d2, Write testDevice [[1, 2, 3]] 0 .commCase = .ret ⟨d1, 1, none⟩ ∧
      Close d1 = .ret d2 none ∧
      Read d2 [[0, 0, 0]] [0] 0 .commCase =
        .ret ⟨withQueue d2 [], [[1, 2, 3]], [3], 1, none⟩) := by
  refine ⟨⟨_, rfl, ?_, ?_, ?_, ?_⟩, ⟨_, _, rfl, rfl, ?_⟩⟩ <;> decide

/-- C4 (amended): a `Read` with offset ≥ 0 on an open device that dequeues a batch
with no oversize packet returns `n = min(batch length, buffer count)` and a nil
error, and for every index `i < n` that has a size slot (`i < len(sizes)`) the
packet has been written into `bufs[i]` at `offset` and `sizes[i]` is its length. -/
theorem Read_delivers (d : Device) (batch : List (List Byte)) (rest : List (List (List Byte)))
    (bufs : List (List Byte)) (sizes : List Int) (offset : Int) (pick : SelectCase)
    (hopen : d.closed = false) (hq : d.incoming.buf = batch :: rest) (ho : 0 ≤ offset)
    (hfit : ∀ i, i < min batch.length bufs.length →
      Fits (batch.getD i []) (bufs.getD i []) offset) :
    ∃ r, Read d bufs sizes offset pick = .ret r ∧ r.dev = withQueue d rest ∧
      r.n = min batch.length bufs.length ∧ r.err = none ∧
      ∀ i, i < r.n → i < sizes.length →
        r.bufs[i]? = some (deliverBuf (bufs.getD i []) (batch.getD i []) offset.toNat) ∧
        r.sizes[i]? = some (((batch.getD i []).length : Nat) : Int) :=
  Read_no_oversize d batch rest bufs sizes offset pick
    (select_open_queued d batch rest pick hopen hq) hq ho hfit

theorem Read_delivers_witness :
    ∃ r, Read (withQueue testDevice [[[1, 2, 3], [4, 5]]])
        [[0, 0, 0, 0], [0, 0, 0, 0]] [0] 0 .commCase = .ret r ∧
      r.dev = withQueue (withQueue testDevice [[[1, 2, 3], [4, 5]]]) [] ∧
      r.n = min [[1, 2, 3], [4, 5]].length [[0, 0, 0, 0], [0, 0, 0, 0]].length ∧
      r.err = none ∧
      ∀ i, i < r.n → i < [(0 : Int)].length →
        r.bufs[i]? = some (deliverBuf (List.getD [[0, 0, 0, 0], [0, 0, 0, 0]] i [])
          (List.getD [[1, 2, 3], [4, 5]] i []) (0 : Int).toNat) ∧
        r.sizes[i]? = some (((List.getD [[(1 : Byte), 2, 3], [4, 5]] i []).length : Nat) : Int) :=
  Read_delivers (withQueue testDevice [[[1, 2, 3], [4, 5]]]) [[1, 2, 3], [4, 5]] []
    [[0, 0, 0, 0], [0, 0, 0, 0]] [0] 0 .commCase rfl rfl (by decide) (by
      intro i hi
      have : i = 0 ∨ i = 1 := by
        simp only [List.length_cons, List.length_nil] at hi; omega
      rcases this with h | h <;> subst h <;> decide)

/-- C4 (as stated) fails: with two buffers but a single size slot, `Read` returns
`(2, nil)` although the packet of index 1 has not been written into `bufs[1]` and
no `sizes[1]` holds its length. -/
theorem Read_short_sizes_counterexample :
    Read (withQueue testDevice [[[1, 2, 3], [4, 5]]])
        [[0, 0, 0, 0], [0, 0, 0, 0]] [0] 0 .commCase =
      .ret ⟨withQueue testDevice [], [[1, 2, 3, 0], [0, 0, 0, 0]], [3], 2, none⟩ := by
  decide

theorem Read_oversize_witness :
    ∃ r, Read (withQueue testDevice [[[1, 2], [3, 4, 5]]])
        [[0, 0, 0], [0, 0]] [9, 9] 1 .commCase = .ret r ∧
      r.dev = withQueue (withQueue testDevice [[[1, 2], [3, 4, 5]]]) [] ∧
      r.n = 0 ∧ r.err = some .packetTooLarge ∧
      r.bufs.length = [[(0 : Byte), 0, 0], [0, 0]].length ∧
      r.sizes.length = [(9 : Int), 9].length ∧
      (∀ j, j < 1 →
        r.bufs[j]? = some (deliverBuf (List.getD [[0, 0, 0], [0, 0]] j [])
          (List.getD [[1, 2], [3, 4, 5]] j []) (1 : Int).toNat) ∧
        r.sizes[j]? = some (((List.getD [[(1 : Byte), 2], [3, 4, 5]] j []).length : Nat) : Int)) ∧
      (∀ j, 1 ≤ j → r.bufs[j]? = [[(0 : Byte), 0, 0], [0, 0]][j]? ∧
        r.sizes[j]? = [(9 : Int), 9][j]?) :=
  Read_oversize (withQueue testDevice [[[1, 2], [3, 4, 5]]]) [[1, 2], [3, 4, 5]] []
    [[0, 0, 0], [0, 0]] [9, 9] 1 .commCase 1 rfl rfl (by decide) (by decide) (by decide)
    (by decide) (by
      intro j hj
      have : j = 0 := by omega
      subst this
      decide)

/-- C3 (as stated) fails: with no size slot for it, the oversize packet of index 0
(3 bytes for a 1-byte buffer) is not detected and `Read` returns `(1, nil)`. -/
theorem Read_oversize_counterexample :
    Read (withQueue testDevice [[[1, 2, 3]]]) [[0]] [] 0 .commCase =
      .ret ⟨withQueue testDevice [], [[0]], [], 1, none⟩ ∧
    ¬ Fits [1, 2, 3] [0] 0 := by
  decide

theorem Close_idempotent_witness :
    (∃ d1, Close testDevice = .ret d1 none ∧ d1.closed = true ∧ Close d1 = .ret d1 none ∧
      ∀ n, closeTimes (n + 1) testDevice = some d1) ∧
    (testDevice.closed = true → Close testDevice = .ret testDevice none) :=
  Close_idempotent testDevice (Reachable.create "wg-test" 0)

end loop

/-! ## Properties of the UAPI socket bootstrap -/

namespace ipc

theorem resolve_unix (path : String) : ResolveUnixAddr "unix" path = .ok ⟨path, "unix"⟩ := by
  simp [ResolveUnixAddr]

/-- C7: whenever the first bind on the socket path fails and a client connection
to that path succeeds, `UAPIOpen` returns the error "unix socket in use" and no
file, after exactly one bind and no removal. -/
theorem UAPIOpen_in_use (w : World) (name : String) (e : Error)
    (hmk : w.mkdirAll (socketDirectory w) 0o755 = none)
    (hl : w.listenUnix 0 ⟨sockPath w name, "unix"⟩ = .error e)
    (hd : w.dial "unix" (sockPath w name) = .ok ()) :
    (UAPIOpen w name).err = some (.text "unix socket in use") ∧
    (UAPIOpen w name).file = none ∧
    (UAPIOpen w name).calls =
      [.mkdirAll (socketDirectory w) 0o755, .umask 0o077,
        .listenUnix "unix" ⟨sockPath w name, "unix"⟩, .dial "unix" (sockPath w name),
        .umask w.oldUmask] ∧
    (UAPIOpen w name).calls.countP Call.isRemove = 0 ∧
    (UAPIOpen w name).calls.countP Call.isListen = 1 := by
  have h : UAPIOpen w name =
      ⟨[.mkdirAll (socketDirectory w) 0o755, .umask 0o077,
        .listenUnix "unix" ⟨sockPath w name, "unix"⟩, .dial "unix" (sockPath w name),
        .umask w.oldUmask], none, some (.text "unix socket in use")⟩ := by
    simp [UAPIOpen, hmk, resolve_unix, hl, hd]
  rw [h]
  refine ⟨rfl, rfl, rfl, ?_, ?_⟩ <;> simp [List.countP_cons, Call.isRemove, Call.isListen]

theorem UAPIOpen_in_use_witness :
    (UAPIOpen liveWorld "wg0").err = some (.text "unix socket in use") ∧
    (UAPIOpen liveWorld "wg0").file = none ∧
    (UAPIOpen liveWorld "wg0").calls =
      [.mkdirAll (socketDirectory liveWorld) 0o755, .umask 0o077,
        .listenUnix "unix" ⟨sockPath liveWorld "wg0", "unix"⟩,
        .dial "unix" (sockPath liveWorld "wg0"), .umask liveWorld.oldUmask] ∧
    (UAPIOpen liveWorld "wg0").calls.countP Call.isRemove = 0 ∧
    (UAPIOpen liveWorld "wg0").calls.countP Call.isListen = 1 :=
  UAPIOpen_in_use liveWorld "wg0" (.errno .EADDRINUSE) rfl rfl rfl

/-- C8 (as stated) fails: the delete-and-retry path is also taken when the first
bind failed for another reason than the path being in use (here: no free
descriptor); and when the removal itself fails the bind is not retried. -/
theorem UAPIOpen_retry_counterexample :
    ((∀ a, transientWorld.listenUnix 0 a = .error (.errno .EMFILE)) ∧
      UAPIOpen transientWorld "wg0" =
        ⟨[.mkdirAll "/run/user/1000/wireguard-loop" 0o755, .umask 0o077,
          .listenUnix "unix" ⟨"/run/user/1000/wireguard-loop/wg0.sock", "unix"⟩,
          .dial "unix" "/run/user/1000/wireguard-loop/wg0.sock",
          .remove "/run/user/1000/wireguard-loop/wg0.sock",
          .listenUnix "unix" ⟨"/run/user/1000/wireguard-loop/wg0.sock", "unix"⟩,
          .file 7, .umask 0o022], some (.fd 8), none⟩) ∧
    ((∀ n a, undeletableWorld.listenUnix n a = .error (.errno .EADDRINUSE)) ∧
      UAPIOpen undeletableWorld "wg0" =
        ⟨[.mkdirAll "/tmp/wireguard-loop" 0o755, .umask 0o077,
          .listenUnix "unix" ⟨"/tmp/wireguard-loop/wg0.sock", "unix"⟩,
          .dial "unix" "/tmp/wireguard-loop/wg0.sock",
          .remove "/tmp/wireguard-loop/wg0.sock", .umask 0o022],
          none, some (.errno .EACCES)⟩) := by
  refine ⟨⟨fun _ => rfl, ?_⟩, ⟨fun _ _ => rfl, ?_⟩⟩ <;> decide

/-- C8 (amended): `UAPIOpen` attempts a removal at most once and a bind at most
twice; it attempts the removal exactly when the first bind failed (whatever the
error) and a client connection to the path failed; if the removal succeeds the
bind is retried exactly once, a successful retry yields the result of the
listener's `File()` and a failed retry is returned as the error; if the removal
fails its error is returned and the bind is not retried. -/
theorem UAPIOpen_stale_retry (w : World) (name : String) :
    (UAPIOpen w name).calls.countP Call.isRemove ≤ 1 ∧
    (UAPIOpen w name).calls.countP Call.isListen ≤ 2 ∧
    ((UAPIOpen w name).calls.countP Call.isRemove = 1 ↔
      (w.mkdirAll (socketDirectory w) 0o755 = none ∧
       (∃ e, w.listenUnix 0 ⟨sockPath w name, "unix"⟩ = .error e) ∧
       (∃ e, w.dial "unix" (sockPath w name) = .error e))) ∧
    (w.mkdirAll (socketDirectory w) 0o755 = none →
      (∃ e, w.listenUnix 0 ⟨sockPath w name, "unix"⟩ = .error e) →
      (∃ e, w.dial "unix" (sockPath w name) = .error e) →
      (w.remove (sockPath w name) = none →
        (UAPIOpen w name).calls.countP Call.isListen = 2 ∧
        (∀ l, w.listenUnix 1 ⟨sockPath w name, "unix"⟩ = .ok l →
          (UAPIOpen w name).file = (w.file l).1 ∧ (UAPIOpen w name).err = (w.file l).2) ∧
        (∀ e, w.listenUnix 1 ⟨sockPath w name, "unix"⟩ = .error e →
          (UAPIOpen w name).file = none ∧ (UAPIOpen w name).err = some e)) ∧
      (∀ e, w.remove (sockPath w name) = some e →
        (UAPIOpen w name).calls.countP Call.isListen = 1 ∧
        (UAPIOpen w name).file = none ∧ (UAPIOpen w name).err = some e)) := by
  cases hmk : w.mkdirAll (socketDirectory w) 0o755 with
  | some err => simp [UAPIOpen, hmk, List.countP_cons, Call.isRemove, Call.isListen]
  | none =>
    cases hl : w.listenUnix 0 ⟨sockPath w name, "unix"⟩ with
    | ok l => simp [UAPIOpen, hmk, resolve_unix, hl, List.countP_cons, Call.isRemove, Call.isListen]
    | error e0 =>
      cases hd : w.dial "unix" (sockPath w name) with
      | ok u =>
        simp [UAPIOpen, hmk, resolve_unix, hl, hd, List.countP_cons, Call.isRemove,
          Call.isListen]
      | error e1 =>
        cases hr : w.remove (sockPath w name) with
        | some e2 =>
          simp [UAPIOpen, hmk, resolve_unix, hl, hd, hr, List.countP_cons, Call.isRemove,
            Call.isListen]
        | none =>
          cases hl1 : w.listenUnix 1 ⟨sockPath w name, "unix"⟩ with
          | ok l1 =>
            simp [UAPIOpen, hmk, resolve_unix, hl, hd, hr, hl1, List.countP_cons,
              Call.isRemove, Call.isListen]
          | error e3 =>
            simp [UAPIOpen, hmk, resolve_unix, hl, hd, hr, hl1, List.countP_cons,
              Call.isRemove, Call.isListen]

theorem UAPIOpen_stale_retry_witness :
    (UAPIOpen staleWorld "wg0").calls.countP Call.isListen = 2 ∧
    (∀ l, staleWorld.listenUnix 1 ⟨sockPath staleWorld "wg0", "unix"⟩ = .ok l →
      (UAPIOpen staleWorld "wg0").file = (staleWorld.file l).1 ∧
      (UAPIOpen staleWorld "wg0").err = (staleWorld.file l).2) ∧
    (∀ e, staleWorld.listenUnix 1 ⟨sockPath staleWorld "wg0", "unix"⟩ = .error e →
      (UAPIOpen staleWorld "wg0").file = none ∧ (UAPIOpen staleWorld "wg0").err = some e) :=
  ((UAPIOpen_stale_retry staleWorld "wg0").2.2.2 rfl ⟨_, rfl⟩ ⟨_, rfl⟩).1 rfl

/-- C9 (amended): `UAPIOpen` uses the socket path
`<runtime-dir>/wireguard-loop/<interface-name>.sock` for every bind, client
connection and removal, and its first call creates the directory
`<runtime-dir>/wireguard-loop` requesting mode `0o755`: read, write and execute
for the owner, read and execute for the group and for others. -/
theorem UAPIOpen_path_and_mode (w : World) (name : String) :
    sockPath w name = runtimeDir w ++ "/wireguard-loop/" ++ name ++ ".sock" ∧
    (UAPIOpen w name).calls.head? =
      some (.mkdirAll (runtimeDir w ++ "/wireguard-loop") 0o755) ∧
    (∀ c ∈ (UAPIOpen w name).calls,
      (∀ p m, c = .mkdirAll p m → p = runtimeDir w ++ "/wireguard-loop" ∧ m = 0o755) ∧
      (∀ n a, c = .listenUnix n a → n = "unix" ∧ a = ⟨sockPath w name, "unix"⟩) ∧
      (∀ n p, c = .dial n p → n = "unix" ∧ p = sockPath w name) ∧
      (∀ p, c = .remove p → p = sockPath w name)) ∧
    (0o755 &&& 0o700 = 0o700 ∧ 0o755 &&& 0o070 = 0o050 ∧ 0o755 &&& 0o007 = 0o005) := by
  have hdir : socketDirectory w = runtimeDir w ++ "/wireguard-loop" := by
    unfold socketDirectory runtimeDir
    split <;> rfl
  have hpath : sockPath w name = runtimeDir w ++ "/wireguard-loop/" ++ name ++ ".sock" := by
    unfold sockPath
    rw [hdir]
    simp only [String.append_assoc]
    rfl
  have hcalls : ∃ tl, (UAPIOpen w name).calls = .mkdirAll (socketDirectory w) 0o755 :: tl ∧
      ∀ c ∈ tl, (∃ m, c = .umask m) ∨ c = .listenUnix "unix" ⟨sockPath w name, "unix"⟩ ∨
        c = .dial "unix" (sockPath w name) ∨ c = .remove (sockPath w name) ∨
        ∃ l, c = .file l := by
    cases hmk : w.mkdirAll (socketDirectory w) 0o755 with
    | some err => exact ⟨[], by simp [UAPIOpen, hmk], by simp⟩
    | none =>
      cases hl : w.listenUnix 0 ⟨sockPath w name, "unix"⟩ with
      | ok l => exact ⟨_, by simp [UAPIOpen, hmk, resolve_unix, hl]; rfl, by simp⟩
      | error e0 =>
        cases hd : w.dial "unix" (sockPath w name) with
        | ok u => exact ⟨_, by simp [UAPIOpen, hmk, resolve_unix, hl, hd]; rfl, by simp⟩
        | error e1 =>
          cases hr : w.remove (sockPath w name) with
          | some e2 =>
            exact ⟨_, by simp [UAPIOpen, hmk, resolve_unix, hl, hd, hr]; rfl, by simp⟩
          | none =>
            cases hl1 : w.listenUnix 1 ⟨sockPath w name, "unix"⟩ with
            | ok l1 =>
              exact ⟨_, by simp [UAPIOpen, hmk, resolve_unix, hl, hd, hr, hl1]; rfl, by simp⟩
            | error e3 =>
              exact ⟨_, by simp [UAPIOpen, hmk, resolve_unix, hl, hd, hr, hl1]; rfl, by simp⟩
  obtain ⟨tl, htl, hmem⟩ := hcalls
  rw [htl, ← hdir]
  refine ⟨hpath, rfl, ?_, by decide⟩
  intro c hc
  rcases List.mem_cons.mp hc with h | h
  · subst h
    simp
  · rcases hmem c h with ⟨m, h1⟩ | h1 | h1 | h1 | ⟨l, h1⟩ <;> subst h1 <;> simp

/-- C9 (as stated) fails: the mode requested for the directory, `0o755`, has group
and other bits set (`0o055`), so it does not restrict access to the owner. -/
theorem UAPIOpen_mode_counterexample :
    (UAPIOpen liveWorld "wg0").calls.head? =
      some (.mkdirAll "/run/user/1000/wireguard-loop" 0o755) ∧
    ownerOnly 0o755 = false ∧ 0o755 &&& 0o077 = 0o055 := by
  decide

end ipc

/-! ## Properties of the daemonize decision -/

namespace cmd

theorem childAttr_spec (os : OS) (ll : LogLevel) (f : File) :
    (childAttr os ll f).Env = os.environ ++ ["WG_UAPI_FD=3", "WG_PROCESS_FOREGROUND=1"] ∧
    (childAttr os ll f).Files.length = 4 ∧ (childAttr os ll f).Files[3]? = some f := by
  unfold childAttr
  refine ⟨?_, ?_, ?_⟩
  · simp only [ENV_WG_UAPI_FD, ENV_WG_PROCESS_FOREGROUND, List.append_assoc,
      List.singleton_append]
    rfl
  · simp only; split <;> rfl
  · simp only; split <;> rfl

theorem mem_daemonizeOrServe (os : OS) (fg : Bool) (ll : LogLevel) (f : File) (ep : Bool)
    (p : String) (a : List String) (t : ProcAttr)
    (h : Action.startProcess p a t ∈ daemonizeOrServe os fg ll f ep) :
    fg = false ∧ ep = false ∧ os.executable = some p ∧ a = os.args ∧
    t = childAttr os ll f := by
  unfold daemonizeOrServe at h
  cases fg <;> cases ep <;> simp at h
  cases hex : os.executable with
  | none => simp [hex] at h
  | some path =>
    simp only [hex] at h
    cases hsp : os.startProcess path os.args (childAttr os ll f) <;> simp [hsp] at h <;>
      simp [h]

theorem daemonizeOrServe_spawn (os : OS) (ll : LogLevel) (f : File) (path : String)
    (hex : os.executable = some path)
    (hsp : ∀ path argv attr, os.startProcess path argv attr = true) :
    daemonizeOrServe os false ll f false =
      [.startProcess path os.args (childAttr os ll f), .release] := by
  unfold daemonizeOrServe
  simp [hex, hsp]

/-- The function `run` once `CreateLoop` has returned (it never fails): the start
of the trace, then the selection of the UAPI file and what follows it. -/
theorem run_eq (os : OS) (fg : Bool) (name : String) :
    run os fg name =
      [.createLoop name os.deviceDefaultMTU,
        .verbosef "Starting wireguard-loop-go version %s"] ++
      (if os.getenv ENV_WG_UAPI_EP_FD ≠ "" then
        match parseUint32 (os.getenv ENV_WG_UAPI_EP_FD) with
        | none => [.errorf "Invalid WG_UAPI_EP_FD: %v", .exit ExitSetupFailed]
        | some fd =>
          daemonizeOrServe os (fg || decide (os.getenv ENV_WG_PROCESS_FOREGROUND = "1"))
            (logLevel os) (.fd fd) true
      else if os.getenv ENV_WG_UAPI_FD ≠ "" then
        match parseUint32 (os.getenv ENV_WG_UAPI_FD) with
        | none => [.errorf "Invalid WG_UAPI_FD: %v", .exit ExitSetupFailed]
        | some fd =>
          daemonizeOrServe os (fg || decide (os.getenv ENV_WG_PROCESS_FOREGROUND = "1"))
            (logLevel os) (.fd fd) false
      else
        match (ipc.UAPIOpen os.ipc name).err with
        | some _ =>
          [.uapiOpen name (ipc.UAPIOpen os.ipc name).calls, .errorf "UAPI listen error: %v",
            .exit ExitSetupFailed]
        | none =>
          [.uapiOpen name (ipc.UAPIOpen os.ipc name).calls] ++
            daemonizeOrServe os (fg || decide (os.getenv ENV_WG_PROCESS_FOREGROUND = "1"))
              (logLevel os) ((ipc.UAPIOpen os.ipc name).file.getD .nil) false) := by
  unfold run
  have hfg : (if (!fg) = true then decide (os.getenv ENV_WG_PROCESS_FOREGROUND = "1") else fg)
      = (fg || decide (os.getenv ENV_WG_PROCESS_FOREGROUND = "1")) := by
    cases fg <;> simp
  simp only [loop.CreateLoop, loop.Name, hfg]
  split
  · split <;> simp
  · split
    · split <;> simp
    · split <;> rename_i heq <;> simp [heq]

theorem uapiOpen_not_mem_daemonizeOrServe (os : OS) (fg : Bool) (ll : LogLevel) (f : File)
    (ep : Bool) (n : String) (c : List ipc.Call) :
    Action.uapiOpen n c ∉ daemonizeOrServe os fg ll f ep := by
  unfold daemonizeOrServe
  split
  · cases os.executable with
    | none => simp
    | some path =>
      simp only []
      split <;> simp
  · simp

theorem spawn_mem_run (os : OS) (fg : Bool) (name : String)
    (p : String) (a : List String) (t : ProcAttr)
    (h : Action.startProcess p a t ∈ run os fg name) :
    fg = false ∧ os.getenv ENV_WG_PROCESS_FOREGROUND ≠ "1" ∧
    os.getenv ENV_WG_UAPI_EP_FD = "" ∧ os.executable = some p ∧ a = os.args ∧
    t = childAttr os (logLevel os)
      (if os.getenv ENV_WG_UAPI_FD ≠ "" then
        .fd ((parseUint32 (os.getenv ENV_WG_UAPI_FD)).getD 0)
      else (ipc.UAPIOpen os.ipc name).file.getD .nil) := by
  rw [run_eq] at h
  simp only [List.mem_append, List.mem_cons, List.mem_singleton, List.mem_nil_iff,
    or_false, reduceCtorEq, false_or] at h
  have hfgs : ∀ b : Bool, (fg || b) = false → fg = false ∧ b = false := by
    intro b; cases fg <;> cases b <;> simp
  split at h
  · split at h
    · simp at h
    · have := mem_daemonizeOrServe _ _ _ _ _ _ _ _ h
      simp at this
  · rename_i hep
    have hep : os.getenv ENV_WG_UAPI_EP_FD = "" := by simpa using hep
    split at h
    · rename_i hfd
      split at h
      · simp at h
      · rename_i fd hparse
        obtain ⟨h1, _, h3, h4, h5⟩ := mem_daemonizeOrServe _ _ _ _ _ _ _ _ h
        obtain ⟨h6, h7⟩ := hfgs _ h1
        refine ⟨h6, by simpa using h7, hep, h3, h4, ?_⟩
        rw [h5, if_pos hfd, hparse]
        rfl
    · rename_i hfd
      split at h
      · simp at h
      · simp only [List.mem_append, List.mem_cons, List.mem_singleton, List.mem_nil_iff,
          or_false, reduceCtorEq, false_or] at h
        obtain ⟨h1, _, h3, h4, h5⟩ := mem_daemonizeOrServe _ _ _ _ _ _ _ _ h
        obtain ⟨h6, h7⟩ := hfgs _ h1
        refine ⟨h6, by simpa using h7, hep, h3, h4, ?_⟩
        rw [h5, if_neg hfd]

theorem uapiOpen_mem_run (os : OS) (fg : Bool) (name : String)
    (n : String) (c : List ipc.Call) (h : Action.uapiOpen n c ∈ run os fg name) :
    os.getenv ENV_WG_UAPI_EP_FD = "" ∧ os.getenv ENV_WG_UAPI_FD = "" := by
  rw [run_eq] at h
  simp only [List.mem_append, List.mem_cons, List.mem_singleton, List.mem_nil_iff,
    or_false, reduceCtorEq, false_or] at h
  split at h
  · split at h
    · simp at h
    · exact absurd h (uapiOpen_not_mem_daemonizeOrServe _ _ _ _ _ _ _)
  · rename_i hep
    split at h
    · split at h
      · simp at h
      · exact absurd h (uapiOpen_not_mem_daemonizeOrServe _ _ _ _ _ _ _)
    · rename_i hfd
      exact ⟨by simpa using hep, by simpa using hfd⟩

theorem run_daemonizes (os : OS) (name : String)
    (hfg : os.getenv ENV_WG_PROCESS_FOREGROUND ≠ "1")
    (hep : os.getenv ENV_WG_UAPI_EP_FD = "")
    (hfd : os.getenv ENV_WG_UAPI_FD ≠ "" → (parseUint32 (os.getenv ENV_WG_UAPI_FD)).isSome)
    (hopen : os.getenv ENV_WG_UAPI_FD = "" → (ipc.UAPIOpen os.ipc name).err = none)
    (hex : os.executable.isSome)
    (hsp : ∀ path argv attr, os.startProcess path argv attr = true) :
    (∃ p a t, Action.startProcess p a t ∈ run os false name) ∧
    Action.release ∈ run os false name := by
  obtain ⟨path, hpath⟩ := Option.isSome_iff_exists.mp hex
  have hd := fun f => daemonizeOrServe_spawn os (logLevel os) f path hpath hsp
  have hfg1 : (false || decide (os.getenv ENV_WG_PROCESS_FOREGROUND = "1")) = false := by
    simp [hfg]
  rw [run_eq, hfg1]
  simp only [hep, ne_eq, not_true_eq_false, if_false]
  by_cases h : os.getenv ENV_WG_UAPI_FD = ""
  · simp only [h, not_true_eq_false, if_false, hopen h, hd]
    exact ⟨⟨path, os.args, childAttr os (logLevel os)
      ((ipc.UAPIOpen os.ipc name).file.getD .nil), by simp⟩, by simp⟩
  · obtain ⟨fd, hfdv⟩ := Option.isSome_iff_exists.mp (hfd h)
    simp only [h, not_false_eq_true, if_true, hfdv, hd]
    exact ⟨⟨path, os.args, childAttr os (logLevel os) (.fd fd), by simp⟩, by simp⟩

theorem main_valid (os : OS) (h : ValidCommandLine os.args) :
    main os = run os (decide (ForegroundFlag os.args)) (interfaceName os.args) := by
  unfold main
  rcases h with ⟨h1, h2⟩ | ⟨h1, h2, h3⟩
  · have e1 : ¬ (os.args.length = 2 ∧ os.args[1]? = some "--version") := fun h => by omega
    have e2 : ¬ (os.args.length < 2 ∨ os.args.length > 3) := by omega
    have e3 : ¬ os.args.length ≠ 3 := by omega
    have h2u : os.args[1]? = some "-f" ∨ os.args[1]? = some "--foreground" := h2
    rw [if_neg e1, if_neg e2, if_pos h2u, if_neg e3, interfaceName, if_pos h2,
      decide_eq_true h2]
  · have e1 : ¬ (os.args.length = 2 ∧ os.args[1]? = some "--version") := fun h => h3 h.2
    have e2 : ¬ (os.args.length < 2 ∨ os.args.length > 3) := by omega
    have e3 : ¬ os.args.length ≠ 2 := by omega
    have h2u : ¬ (os.args[1]? = some "-f" ∨ os.args[1]? = some "--foreground") := h2
    rw [if_neg e1, if_neg e2, if_neg h2u, if_neg e3, interfaceName, if_neg h2,
      decide_eq_false h2]

theorem main_mem (os : OS) (x : Action) (h : x ∈ main os) :
    x = .printVersion ∨ x = .printUsage ∨
    (ValidCommandLine os.args ∧
      x ∈ run os (decide (ForegroundFlag os.args)) (interfaceName os.args)) := by
  by_cases hv : ValidCommandLine os.args
  · rw [main_valid os hv] at h
    exact Or.inr (Or.inr ⟨hv, h⟩)
  · unfold ValidCommandLine ForegroundFlag at hv
    unfold main at h
    split at h
    · left; simpa using h
    · rename_i hver
      split at h
      · right; left; simpa using h
      · split at h
        · rename_i hflag
          split at h
          · right; left; simpa using h
          · rename_i hlen
            exact absurd (Or.inl ⟨by simpa using hlen, hflag⟩) hv
        · rename_i hflag
          split at h
          · right; left; simpa using h
          · rename_i hlen
            have hlen : os.args.length = 2 := by simpa using hlen
            exact absurd (Or.inr ⟨hlen, hflag, fun hh => hver ⟨hlen, hh⟩⟩) hv

/-- C10: for a valid command line and environment, `main` re-executes itself as a
background child exactly when the flag `-f`/`--foreground` is absent,
`WG_PROCESS_FOREGROUND` is not "1" and `WG_UAPI_EP_FD` is empty (and no run calls
`os.StartProcess` otherwise); when `WG_UAPI_EP_FD` holds a descriptor number the
run neither calls `os.StartProcess` nor `ipc.UAPIOpen`, whatever `WG_UAPI_FD` is;
and every `os.StartProcess` call re-executes the program with its own arguments,
the environment with `WG_UAPI_FD=3` and `WG_PROCESS_FOREGROUND=1` appended, and
the listening file as the inherited descriptor 3. -/
theorem daemonize_decision :
    (∀ os : OS, ValidCommandLine os.args → ValidEnvironment os →
      (Daemonizes os ↔
        ¬ ForegroundFlag os.args ∧ os.getenv ENV_WG_PROCESS_FOREGROUND ≠ "1" ∧
        os.getenv ENV_WG_UAPI_EP_FD = "")) ∧
    (∀ os : OS, Spawns os →
      ¬ ForegroundFlag os.args ∧ os.getenv ENV_WG_PROCESS_FOREGROUND ≠ "1" ∧
      os.getenv ENV_WG_UAPI_EP_FD = "") ∧
    (∀ (os : OS) (fd : Nat), parseUint32 (os.getenv ENV_WG_UAPI_EP_FD) = some fd →
      ¬ Spawns os ∧ ¬ CallsUAPIOpen os) ∧
    (∀ (os : OS) (path : String) (argv : List String) (attr : ProcAttr),
      Action.startProcess path argv attr ∈ main os →
      os.executable = some path ∧ argv = os.args ∧
      attr.Env = os.environ ++ ["WG_UAPI_FD=3", "WG_PROCESS_FOREGROUND=1"] ∧
      attr.Files.length = 4 ∧ attr.Files[3]? = some (listenerFile os)) := by
  have hspawn : ∀ (os : OS) (path : String) (argv : List String) (attr : ProcAttr),
      Action.startProcess path argv attr ∈ main os →
      (¬ ForegroundFlag os.args ∧ os.getenv ENV_WG_PROCESS_FOREGROUND ≠ "1" ∧
        os.getenv ENV_WG_UAPI_EP_FD = "") ∧
      os.executable = some path ∧ argv = os.args ∧
      attr = childAttr os (logLevel os) (listenerFile os) := by
    intro os path argv attr h
    rcases main_mem os _ h with h1 | h1 | ⟨_, h1⟩
    · cases h1
    · cases h1
    · obtain ⟨h2, h3, h4, h5, h6, h7⟩ := spawn_mem_run _ _ _ _ _ _ h1
      exact ⟨⟨by simpa using h2, h3, h4⟩, h5, h6, h7⟩
  have hepne : ∀ (os : OS) (fd : Nat),
      parseUint32 (os.getenv ENV_WG_UAPI_EP_FD) = some fd →
      os.getenv ENV_WG_UAPI_EP_FD ≠ "" := by
    intro os fd h he
    rw [he] at h
    simp [parseUint32] at h
  refine ⟨?_, ?_, ?_, ?_⟩
  · intro os hv henv
    constructor
    · rintro ⟨⟨p, a, t, h⟩, _⟩
      exact (hspawn os p a t h).1
    · rintro ⟨h1, h2, h3⟩
      obtain ⟨_, e2, e3, e4, e5⟩ := henv
      have := run_daemonizes os (interfaceName os.args) h2 h3 (e2 h3) (e3 h3) e4 e5
      unfold Daemonizes Spawns
      rw [main_valid os hv, decide_eq_false h1]
      exact this
  · rintro os ⟨p, a, t, h⟩
    exact (hspawn os p a t h).1
  · intro os fd hfd
    refine ⟨?_, ?_⟩
    · rintro ⟨p, a, t, h⟩
      exact hepne os fd hfd (hspawn os p a t h).1.2.2
    · rintro ⟨n, c, h⟩
      rcases main_mem os _ h with h1 | h1 | ⟨_, h1⟩
      · cases h1
      · cases h1
      · exact hepne os fd hfd (uapiOpen_mem_run _ _ _ _ _ h1).1
  · intro os path argv attr h
    obtain ⟨_, h2, h3, h4⟩ := hspawn os path argv attr h
    obtain ⟨c1, c2, c3⟩ := childAttr_spec os (logLevel os) (listenerFile os)
    rw [h4]
    exact ⟨h2, h3, c1, c2, c3⟩

theorem daemonize_decision_witness :
    Daemonizes plainOS ∧ (¬ Spawns endpointOS ∧ ¬ CallsUAPIOpen endpointOS) :=
  ⟨(daemonize_decision.1 plainOS (Or.inr ⟨rfl, by decide, by decide⟩)
      ⟨fun h => absurd rfl h, fun _ h => absurd rfl h, fun _ _ => by decide, rfl,
        fun _ _ _ => rfl⟩).mpr ⟨by decide, by decide, by decide⟩,
   daemonize_decision.2.2.1 endpointOS 7 (by decide)⟩

end cmd

end WireguardLoop
